import Mathlib

/-!
# Verification of portsweep (Go TUI for killing processes on listening TCP ports)

Shallow embedding of the repository's core logic:

* `ports.go` — `parseLsofOutput`, `parsePort`, the port/PID grouping and the
  per-PID command-line lookup (`commandLookup`).
* `formatter.go` — the `CommandFormatter` chain (`formatCommand`,
  `fallbackFormat` and the seven built-in formatters).
* `model.go` — the Bubbletea `Model` with `Update`, `filteredProcesses`,
  the selection map, batch-kill sequencing and cursor clamping.

Go machine integers are modelled as `Int` (values stay far below 2^63 except
where `strconv.Atoi`'s range check is modelled explicitly).  Go maps used by
the source (`processMap`, `selected`) are modelled as association lists in
insertion order; the source only ever observes them through lookups,
insertions and deletions, so this is faithful (the final map iteration order in
`parseLsofOutput` is unspecified in Go; we fix first-insertion order, and no
theorem below depends on the order of records in the returned slice).
-/

/-! ## Go string primitives -/

/-- Unicode White_Space property, as used by Go's `unicode.IsSpace`
(`strings.Fields`, `strings.TrimSpace`). -/
def goIsSpace (c : Char) : Bool :=
  (9 ≤ c.toNat && c.toNat ≤ 13) || c.toNat == 32 || c.toNat == 0x85 ||
  c.toNat == 0xA0 || c.toNat == 0x1680 ||
  (0x2000 ≤ c.toNat && c.toNat ≤ 0x200A) ||
  c.toNat == 0x2028 || c.toNat == 0x2029 || c.toNat == 0x202F ||
  c.toNat == 0x205F || c.toNat == 0x3000

/-- Split a character list at every character satisfying `p`, keeping empty
chunks (the splitting core of `strings.Split` / `strings.Fields`). -/
def splitChars (p : Char → Bool) (cs : List Char) : List (List Char) :=
  cs.foldr
    (fun c acc => if p c then [] :: acc else (c :: acc.headD []) :: acc.tail)
    [[]]

/-- `strings.Fields`: split around runs of white space, dropping empty fields. -/
def goFields (s : String) : List String :=
  ((splitChars goIsSpace s.toList).filter (fun f => !f.isEmpty)).map String.mk

/-- `strings.Split s sep` for a single-character separator (the source only
splits on `"\n"` and `":"`). -/
def goSplit (s : String) (sep : Char) : List String :=
  (splitChars (· == sep) s.toList).map String.mk

/-- `strings.TrimSpace s == ""` test used to skip blank lines. -/
def goIsBlank (s : String) : Bool :=
  s.toList.all goIsSpace

/-- `strconv.Atoi` (= `ParseInt _ 10 64` on a 64-bit platform): optional
sign, at least one decimal digit, nothing else, 64-bit range check. -/
def goAtoi (s : String) : Option Int :=
  let withSign : Int × List Char :=
    match s.toList with
    | '+' :: rest => (1, rest)
    | '-' :: rest => (-1, rest)
    | rest => (1, rest)
  let sign := withSign.1
  let ds := withSign.2
  if ds.isEmpty then none
  else if ds.all Char.isDigit then
    let n : Nat := ds.foldl (fun a c => a * 10 + (c.toNat - 48)) 0
    let v : Int := sign * (n : Int)
    if -(2 ^ 63) ≤ v ∧ v ≤ 2 ^ 63 - 1 then some v else none
  else none

/-- `strings.Contains s sub`: `sub` occurs contiguously in `s`.  Byte-level
matching of valid UTF-8 coincides with code-point-level matching, so the
char-list infix relation is the faithful model. -/
def goContains (s sub : String) : Bool :=
  decide (sub.toList <:+: s.toList)

/-- `strings.HasPrefix s pre`. -/
def goStartsWith (s pre : String) : Bool :=
  pre.toList.isPrefixOf s.toList

/-- ASCII fragment of Go's Unicode `unicode.ToLower`: lowers exactly
`'A'..'Z'`.  Every character the claims below exercise is ASCII. -/
def goToLowerChar (c : Char) : Char :=
  if 65 ≤ c.toNat ∧ c.toNat ≤ 90 then Char.ofNat (c.toNat + 32) else c

/-- `strings.ToLower` (ASCII fragment). -/
def goToLower (s : String) : String :=
  String.mk (s.toList.map goToLowerChar)

/-- `strings.TrimSuffix`. -/
def goTrimSuffix (s suf : String) : String :=
  if suf.toList.isSuffixOf s.toList then
    String.mk (s.toList.take (s.toList.length - suf.toList.length))
  else s

/-- Decimal digits of a natural number, most significant first, with
explicit fuel so that the definition is structurally recursive. -/
def natDigitsAux (fuel n : Nat) : List Char :=
  match fuel with
  | 0 => []
  | fuel + 1 =>
    if n < 10 then [Char.ofNat (48 + n)]
    else natDigitsAux fuel (n / 10) ++ [Char.ofNat (48 + n % 10)]

/-- Decimal digits of a natural number, most significant first
(`strconv.Itoa` for non-negative values); `n + 1` units of fuel always
suffice because a number has at most `n + 1` digits. -/
def natDigits (n : Nat) : List Char :=
  natDigitsAux (n + 1) n

/-- `strconv.Itoa` on a Go `int`. -/
def goItoa (i : Int) : String :=
  if i < 0 then String.mk ('-' :: natDigits i.natAbs) else String.mk (natDigits i.natAbs)

/-- `path/filepath.Base` (Unix rules): strip trailing slashes, then take the
part after the last slash; `""` gives `"."`, an all-slash path gives `"/"`. -/
def goFilepathBase (s : String) : String :=
  if s = "" then "."
  else
    let cs := (s.toList.reverse.dropWhile (· = '/')).reverse
    if cs.isEmpty then "/"
    else String.mk (cs.reverse.takeWhile (· ≠ '/')).reverse

/-! ## ports.go: the lsof output parser -/

/-- `Process` from ports.go. -/
structure Process where
  pid : Int
  ports : List Int
  name : String
  user : String
  command : String
  deriving Repr, DecidableEq

/-- `Process.LowestPort`. -/
def Process.lowestPort (p : Process) : Int :=
  match p.ports with
  | [] => 0
  | q :: _ => q

/-- `parsePort` from ports.go: split the NAME field on `':'` and `Atoi` the
last segment; `0` on any failure. -/
def parsePort (nameField : String) : Int :=
  let parts := goSplit nameField ':'
  if parts.length < 2 then 0
  else
    match goAtoi (parts.getLastD "") with
    | none => 0
    | some port => port

/-- The data extracted from one well-formed lsof data line before the
global port dedup: COMMAND (name), PID, USER and the parsed port. -/
structure LineData where
  pid : Int
  port : Int
  name : String
  user : String
  deriving Repr, DecidableEq

/-- Per-line extraction logic of `parseLsofOutput` (everything up to and
including the `port == 0` check; `none` means the line is skipped).  The
blank-line test mirrors the source; a blank line also has fewer than 9
fields, so the two checks overlap exactly as in the Go code. -/
def lineContent (line : String) : Option LineData :=
  if goIsBlank line then none
  else
    let fields := goFields line
    if fields.length < 9 then none
    else
      let name := fields.headD ""
      let pidStr := fields.getD 1 ""
      let user := fields.getD 2 ""
      let nameField0 := fields.getLastD ""
      let nameField :=
        if nameField0 = "(LISTEN)" ∧ fields.length ≥ 10 then
          fields.getD (fields.length - 2) ""
        else nameField0
      match goAtoi pidStr with
      | none => none
      | some pid =>
        let port := parsePort nameField
        if port = 0 then none
        else some ⟨pid, port, name, user⟩

/-- The accumulator of `parseLsofOutput`'s loop: `processMap` as an
association list in first-insertion order, the `seenPorts` set, and the
trace of PIDs passed to `commandLookup` (in call order). -/
structure ParseState where
  procs : List (Int × Process)
  seenPorts : List Int
  lookups : List Int
  deriving Repr, DecidableEq

def ParseState.init : ParseState := ⟨[], [], []⟩

/-- `proc.Ports = append(proc.Ports, port)` on the entry of `pid` in the
association-list model of `processMap`.  The Go map has unique keys, which
the model maintains as an invariant, so updating the first matching entry is
the faithful translation of the in-place update through the map pointer. -/
def updatePorts : List (Int × Process) → Int → Int → List (Int × Process)
  | [], _, _ => []
  | e :: es, pid, port =>
    if e.1 == pid then (e.1, { e.2 with ports := e.2.ports ++ [port] }) :: es
    else e :: updatePorts es pid port

/-- Body of the loop of `parseLsofOutput` after the line has produced a
`LineData`: the `seenPorts` dedup, then append-to-existing or
create-with-lookup (`commandLookup` is called exactly on creation). -/
def applyData (commandLookup : Int → String) (st : ParseState) (d : LineData) :
    ParseState :=
  if d.port ∈ st.seenPorts then st
  else
    let seen' := d.port :: st.seenPorts
    match st.procs.find? (fun e => e.1 == d.pid) with
    | some _ =>
      { st with
        procs := updatePorts st.procs d.pid d.port
        seenPorts := seen' }
    | none =>
      { procs := st.procs ++
          [(d.pid, { pid := d.pid, ports := [d.port], name := d.name,
                     user := d.user, command := commandLookup d.pid })]
        seenPorts := seen'
        lookups := st.lookups ++ [d.pid] }

/-- One iteration of `parseLsofOutput`'s loop on line number `i`. -/
def processLine (commandLookup : Int → String) (st : ParseState)
    (i : Nat) (line : String) : ParseState :=
  if i = 0 then st
  else
    match lineContent line with
    | none => st
    | some d => applyData commandLookup st d

/-- The loop of `parseLsofOutput` over a list of lines starting at line
number `i`. -/
def parseLinesAux (commandLookup : Int → String) :
    ParseState → Nat → List String → ParseState
  | st, _, [] => st
  | st, i, l :: ls =>
      parseLinesAux commandLookup (processLine commandLookup st i l) (i + 1) ls

/-- The full loop of `parseLsofOutput` on `strings.Split output "\n"`. -/
def parseLsofState (output : String) (commandLookup : Int → String) :
    ParseState :=
  parseLinesAux commandLookup ParseState.init 0 (goSplit output '\n')

/-- Finalisation of `parseLsofOutput`: each record's ports sorted
ascending (`sort.Ints`). -/
def finalizeProcs (procs : List (Int × Process)) : List Process :=
  procs.map (fun e => { e.2 with ports := e.2.ports.insertionSort (· ≤ ·) })

/-- `parseLsofOutput` from ports.go (the error return is always `nil`, so
the result is just the record list). -/
def parseLsofOutput (output : String) (commandLookup : Int → String) :
    List Process :=
  finalizeProcs (parseLsofState output commandLookup).procs

/-- The `LineData` of all data lines of an output, in line order (line 0 is
the header and is never a data line). -/
def dataLines (output : String) : List LineData :=
  ((goSplit output '\n').drop 1).filterMap lineContent

/-- The PID that owns a port according to the first data line carrying that
port, if any. -/
def firstOwner (output : String) (port : Int) : Option Int :=
  ((dataLines output).find? (fun d => d.port == port)).map (fun d => d.pid)

/-! ## Parser lemmas: the grouping/dedup invariant (C1, C2) -/

/-- All ports of all records of the accumulator, in record order. -/
def flatPorts (procs : List (Int × Process)) : List Int :=
  procs.foldr (fun e acc => e.2.ports ++ acc) []

theorem flatPorts_cons (e : Int × Process) (es : List (Int × Process)) :
    flatPorts (e :: es) = e.2.ports ++ flatPorts es := rfl

theorem flatPorts_append (l₁ l₂ : List (Int × Process)) :
    flatPorts (l₁ ++ l₂) = flatPorts l₁ ++ flatPorts l₂ := by
  induction l₁ with
  | nil => rfl
  | cons e es ih => simp [flatPorts_cons, ih]

theorem nodup_ports_of_flat {procs : List (Int × Process)}
    (h : (flatPorts procs).Nodup) : ∀ e ∈ procs, e.2.ports.Nodup := by
  induction procs with
  | nil => simp
  | cons e es ih =>
    rw [flatPorts_cons, List.nodup_append] at h
    intro e' he'
    rcases List.mem_cons.mp he' with h' | h'
    · exact h' ▸ h.1
    · exact ih h.2.1 e' h'

theorem splitChars_ne_nil (p : Char → Bool) (cs : List Char) :
    splitChars p cs ≠ [] := by
  cases cs with
  | nil => simp [splitChars]
  | cons c cs => simp only [splitChars, List.foldr]; split <;> simp

theorem goSplit_ne_nil (s : String) (sep : Char) : goSplit s sep ≠ [] := by
  simpa [goSplit] using splitChars_ne_nil (· == sep) s.toList

theorem updatePorts_keys (l : List (Int × Process)) (pid port : Int) :
    (updatePorts l pid port).map Prod.fst = l.map Prod.fst := by
  induction l with
  | nil => rfl
  | cons e es ih => simp only [updatePorts]; split <;> simp [ih]

theorem mem_updatePorts {l : List (Int × Process)} {pid port : Int} :
    ∀ e' ∈ updatePorts l pid port,
      e' ∈ l ∨ ∃ e ∈ l, e.1 = pid ∧
        e' = (e.1, { e.2 with ports := e.2.ports ++ [port] }) := by
  induction l with
  | nil => simp [updatePorts]
  | cons e es ih =>
    intro e' he'
    simp only [updatePorts] at he'
    split at he'
    · rename_i hK
      rcases List.mem_cons.mp he' with h' | h'
      · exact Or.inr ⟨e, List.mem_cons_self .., by simpa using hK, h'⟩
      · exact Or.inl (List.mem_cons_of_mem _ h')
    · rcases List.mem_cons.mp he' with h' | h'
      · exact Or.inl (h' ▸ List.mem_cons_self ..)
      · rcases ih e' h' with h | ⟨e₀, he₀, h1, h2⟩
        · exact Or.inl (List.mem_cons_of_mem _ h)
        · exact Or.inr ⟨e₀, List.mem_cons_of_mem _ he₀, h1, h2⟩

theorem flatPorts_updatePorts {l : List (Int × Process)} {pid port : Int}
    (h : (l.find? (fun e => e.1 == pid)).isSome) :
    (flatPorts (updatePorts l pid port)).Perm (port :: flatPorts l) := by
  induction l with
  | nil => simp [List.find?] at h
  | cons e es ih =>
    simp only [updatePorts]
    split
    · rename_i hK
      have h1 : flatPorts ((e.1, { e.2 with ports := e.2.ports ++ [port] }) :: es)
          = e.2.ports ++ port :: flatPorts es := by
        simp [flatPorts_cons]
      rw [h1, flatPorts_cons]
      exact List.perm_middle
    · rename_i hK
      rw [List.find?_cons_of_neg _ (by simpa using hK)] at h
      rw [flatPorts_cons, flatPorts_cons]
      exact ((ih h).append_left e.2.ports).trans List.perm_middle

/-- The loop invariant of `parseLsofOutput`, relative to the `LineData` of
the data lines processed so far (`ds`, in line order). -/
structure ParseInv (ds : List LineData) (st : ParseState) : Prop where
  pidsNodup : (st.procs.map Prod.fst).Nodup
  pidField : ∀ e ∈ st.procs, e.2.pid = e.1
  portsNe : ∀ e ∈ st.procs, e.2.ports ≠ []
  flatNodup : (flatPorts st.procs).Nodup
  portsSeen : ∀ q ∈ flatPorts st.procs, q ∈ st.seenPorts
  seenEq : ∀ q, q ∈ st.seenPorts ↔ ∃ d ∈ ds, d.port = q
  owner : ∀ e ∈ st.procs, ∀ q ∈ e.2.ports,
    ((ds.find? (fun d => d.port == q)).map LineData.pid) = some e.1
  lookupsEq : st.lookups = st.procs.map Prod.fst

theorem find?_port_append_some {ds : List LineData} {q : Int} {x : LineData}
    (h : ds.find? (fun d' => d'.port == q) = some x) (d : LineData) :
    (ds ++ [d]).find? (fun d' => d'.port == q) = some x := by
  simp [List.find?_append, h]

theorem owner_extend {ds : List LineData} {q pid : Int}
    (h : (ds.find? (fun d' => d'.port == q)).map LineData.pid = some pid)
    (d : LineData) :
    ((ds ++ [d]).find? (fun d' => d'.port == q)).map LineData.pid = some pid := by
  rcases Option.map_eq_some'.mp h with ⟨x, hx, hpid⟩
  rw [find?_port_append_some hx]
  simp [hpid]

theorem find?_port_new {ds : List LineData} {d : LineData}
    (hnone : ∀ d' ∈ ds, d'.port ≠ d.port) :
    ((ds ++ [d]).find? (fun d' => d'.port == d.port)).map LineData.pid
      = some d.pid := by
  have h1 : ds.find? (fun d' => d'.port == d.port) = none :=
    List.find?_eq_none.mpr (by intro x hx; simpa using hnone x hx)
  simp [List.find?_append, h1]

theorem applyData_inv {ds : List LineData} {st : ParseState}
    (lookup : Int → String) (d : LineData) (h : ParseInv ds st) :
    ParseInv (ds ++ [d]) (applyData lookup st d) := by
  unfold applyData
  split
  · -- d.port already seen: the line is dropped, the state is unchanged
    rename_i hseen
    refine ⟨h.pidsNodup, h.pidField, h.portsNe, h.flatNodup, h.portsSeen,
      ?_, ?_, h.lookupsEq⟩
    · intro q
      rw [h.seenEq q]
      constructor
      · rintro ⟨d', hd', hq⟩; exact ⟨d', List.mem_append_left _ hd', hq⟩
      · rintro ⟨d', hd', hq⟩
        rcases List.mem_append.mp hd' with h' | h'
        · exact ⟨d', h', hq⟩
        · rcases List.mem_singleton.mp h' with rfl
          exact (h.seenEq q).mp (hq ▸ hseen)
    · intro e he q hq
      exact owner_extend (h.owner e he q hq) d
  · rename_i hseen
    have hfresh : ∀ d' ∈ ds, d'.port ≠ d.port := by
      intro d' hd' hq
      exact hseen ((h.seenEq d.port).mpr ⟨d', hd', hq⟩)
    have hseenEq' : ∀ q, q ∈ d.port :: st.seenPorts ↔
        ∃ d' ∈ ds ++ [d], d'.port = q := by
      intro q
      simp only [List.mem_cons]
      constructor
      · rintro (rfl | hq)
        · exact ⟨d, List.mem_append_right _ (List.mem_singleton_self d), rfl⟩
        · rcases (h.seenEq q).mp hq with ⟨d', hd', hq'⟩
          exact ⟨d', List.mem_append_left _ hd', hq'⟩
      · rintro ⟨d', hd', hq'⟩
        rcases List.mem_append.mp hd' with h' | h'
        · exact Or.inr ((h.seenEq q).mpr ⟨d', h', hq'⟩)
        · rcases List.mem_singleton.mp h' with rfl
          exact Or.inl hq'.symm
    split
    · -- existing record for d.pid: append the port to it
      rename_i e0 heq
      have hperm := @flatPorts_updatePorts st.procs d.pid d.port
        (by simp [heq])
      refine ⟨?_, ?_, ?_, ?_, ?_, hseenEq', ?_, ?_⟩
      · rw [updatePorts_keys]; exact h.pidsNodup
      · intro e' he'
        rcases mem_updatePorts e' he' with h' | ⟨e, he, _, rfl⟩
        · exact h.pidField e' h'
        · exact h.pidField e he
      · intro e' he'
        rcases mem_updatePorts e' he' with h' | ⟨e, he, _, rfl⟩
        · exact h.portsNe e' h'
        · simp
      · rw [hperm.nodup_iff]
        refine List.Nodup.cons ?_ h.flatNodup
        intro hmem
        exact hseen (h.portsSeen _ hmem)
      · intro q hq
        rcases List.mem_cons.mp (hperm.mem_iff.mp hq) with rfl | hq'
        · exact List.mem_cons_self ..
        · exact List.mem_cons_of_mem _ (h.portsSeen q hq')
      · intro e' he' q hq
        rcases mem_updatePorts e' he' with h' | ⟨e, he, hKey, rfl⟩
        · exact owner_extend (h.owner e' h' q hq) d
        · rcases List.mem_append.mp hq with hq' | hq'
          · exact owner_extend (h.owner e he q hq') d
          · rcases List.mem_singleton.mp hq' with rfl
            simpa [hKey] using find?_port_new hfresh
      · rw [h.lookupsEq, updatePorts_keys]
    · -- no record for d.pid yet: look up the command line, create the record
      rename_i heq
      have hnotkey : d.pid ∉ st.procs.map Prod.fst := by
        intro hmem
        rcases List.mem_map.mp hmem with ⟨e, he, hKey⟩
        exact absurd (List.find?_eq_none.mp heq e he) (by simp [hKey])
      refine ⟨?_, ?_, ?_, ?_, ?_, hseenEq', ?_, ?_⟩
      · rw [List.map_append]
        refine List.Nodup.append h.pidsNodup (by simp) ?_
        intro a ha hb
        simp only [List.map_cons, List.map_nil, List.mem_singleton] at hb
        exact hnotkey (hb ▸ ha)
      · intro e' he'
        rcases List.mem_append.mp he' with h' | h'
        · exact h.pidField e' h'
        · rcases List.mem_singleton.mp h' with rfl; rfl
      · intro e' he'
        rcases List.mem_append.mp he' with h' | h'
        · exact h.portsNe e' h'
        · rcases List.mem_singleton.mp h' with rfl; simp
      · rw [flatPorts_append]
        have hnp : d.port ∉ flatPorts st.procs := fun hmem =>
          hseen (h.portsSeen _ hmem)
        simpa [flatPorts_cons, flatPorts, List.nodup_append] using
          ⟨h.flatNodup, fun hmem => hnp hmem⟩
      · intro q hq
        rw [flatPorts_append] at hq
        rcases List.mem_append.mp hq with hq' | hq'
        · exact List.mem_cons_of_mem _ (h.portsSeen q hq')
        · simp only [flatPorts_cons, flatPorts, List.append_nil] at hq'
          rcases List.mem_singleton.mp hq' with rfl
          exact List.mem_cons_self ..
      · intro e' he' q hq
        rcases List.mem_append.mp he' with h' | h'
        · exact owner_extend (h.owner e' h' q hq) d
        · rcases List.mem_singleton.mp h' with rfl
          simp only at hq
          rcases List.mem_singleton.mp hq with rfl
          simpa using find?_port_new hfresh
      · simp [h.lookupsEq]

theorem parseLinesAux_inv (lookup : Int → String) :
    ∀ (ls : List String) (st : ParseState) (i : Nat) (ds : List LineData),
      i ≠ 0 → ParseInv ds st →
      ParseInv (ds ++ ls.filterMap lineContent) (parseLinesAux lookup st i ls) := by
  intro ls
  induction ls with
  | nil => intro st i ds _ h; simpa using h
  | cons l ls ih =>
    intro st i ds hi h
    simp only [parseLinesAux]
    cases hq : lineContent l with
    | none =>
      have hstep : ParseInv ds (processLine lookup st i l) := by
        simpa [processLine, hi, hq] using h
      simpa [List.filterMap_cons, hq] using
        ih (processLine lookup st i l) (i + 1) ds (by omega) hstep
    | some d =>
      have hstep : ParseInv (ds ++ [d]) (processLine lookup st i l) := by
        simpa [processLine, hi, hq] using applyData_inv lookup d h
      simpa [List.filterMap_cons, hq, List.append_assoc] using
        ih (processLine lookup st i l) (i + 1) (ds ++ [d]) (by omega) hstep

theorem parseInv_init : ParseInv [] ParseState.init := by
  refine ⟨?_, ?_, ?_, ?_, ?_, ?_, ?_, ?_⟩ <;> simp [ParseState.init, flatPorts]

theorem parseLsofState_inv (output : String) (lookup : Int → String) :
    ParseInv (dataLines output) (parseLsofState output lookup) := by
  unfold parseLsofState dataLines
  cases hL : goSplit output '\n' with
  | nil => exact absurd hL (goSplit_ne_nil output '\n')
  | cons l0 rest =>
    simp only [parseLinesAux, processLine, if_pos rfl, List.drop_succ_cons,
      List.drop_zero]
    simpa using parseLinesAux_inv lookup rest ParseState.init 1 [] (by omega)
      parseInv_init

/-- **C1**: for every lsof output text and every lookup function, each
record produced by `parseLsofOutput` has a non-empty, strictly ascending
(hence duplicate-free) port list; the records carry pairwise distinct PIDs,
and every port of a record is owned by the PID of the first data line (in
line order) carrying that port — so a port appears in at most one record,
namely that of its first data line. -/
theorem C1_record_invariant (output : String) (lookup : Int → String) :
    ((parseLsofOutput output lookup).map Process.pid).Nodup ∧
    ∀ p ∈ parseLsofOutput output lookup,
      p.ports ≠ [] ∧ p.ports.Sorted (· < ·) ∧
      ∀ q ∈ p.ports, firstOwner output q = some p.pid := by
  have inv := parseLsofState_inv output lookup
  constructor
  · have hpids : (parseLsofOutput output lookup).map Process.pid
        = (parseLsofState output lookup).procs.map Prod.fst := by
      unfold parseLsofOutput finalizeProcs
      rw [List.map_map]
      exact List.map_congr_left (fun e he => by simpa using inv.pidField e he)
    rw [hpids]
    exact inv.pidsNodup
  · intro p hp
    unfold parseLsofOutput finalizeProcs at hp
    rcases List.mem_map.mp hp with ⟨e, he, rfl⟩
    have hsort : (e.2.ports.insertionSort (· ≤ ·)).Perm e.2.ports :=
      List.perm_insertionSort _ _
    refine ⟨?_, ?_, ?_⟩
    · intro hnil
      have hnil' : e.2.ports.insertionSort (· ≤ ·) = [] := hnil
      have hlen := hsort.length_eq
      rw [hnil'] at hlen
      exact inv.portsNe e he (List.length_eq_zero.mp hlen.symm)
    · show (e.2.ports.insertionSort (· ≤ ·)).Sorted (· < ·)
      have hnd : e.2.ports.Nodup := nodup_ports_of_flat inv.flatNodup e he
      exact (List.sorted_insertionSort _ _).lt_of_le (hsort.nodup_iff.mpr hnd)
    · intro q hq
      have hq0 : q ∈ e.2.ports.insertionSort (· ≤ ·) := hq
      have hq' : q ∈ e.2.ports := hsort.mem_iff.mp hq0
      have hown := inv.owner e he q hq'
      show ((dataLines output).find? (fun d => d.port == q)).map LineData.pid
        = some e.2.pid
      rw [hown, inv.pidField e he]

def lkW : Int → String := fun _ => ""

/-- lsof output used as a concrete instance for C1: two interfaces for
port 3000 under two PIDs, plus a second port for PID 1. -/
def outC1 : String :=
  "COMMAND PID USER FD TYPE DEVICE SIZE NODE NAME\na 1 u f t d s TCP *:3000 (LISTEN)\nb 2 u f t d s TCP *:3000 (LISTEN)\na 1 u f t d s TCP [::1]:4000 (LISTEN)"

def procC1 : Process := ⟨1, [3000, 4000], "a", "u", ""⟩

/-- Witness for C1 at a concrete output and record. -/
theorem C1_record_invariant_witness :
    procC1 ∈ parseLsofOutput outC1 lkW ∧
    procC1.ports.Sorted (· < ·) ∧
    firstOwner outC1 3000 = some procC1.pid :=
  ⟨by decide,
   ((C1_record_invariant outC1 lkW).2 procC1 (by decide)).2.1,
   ((C1_record_invariant outC1 lkW).2 procC1 (by decide)).2.2 3000 (by decide)⟩

/-- lsof output where two different PIDs report the same port: the second
line is dropped by the cross-interface port dedup before any record is
created for PID 2, so the command-line lookup never runs for PID 2 even
though PID 2 appears on a (fully well-formed) data line. -/
def outC2 : String :=
  "COMMAND PID USER FD TYPE DEVICE SIZE NODE NAME\na 1 u f t d s TCP *:3000 (LISTEN)\nb 2 u f t d s TCP *:3000 (LISTEN)"

/-- **C2, counterexample**: PID 2 appears in the data lines of `outC2`,
yet the lookup function is invoked zero times (not once) for it.  This
refutes "exactly once per distinct process id that appears in the data
lines". -/
theorem C2_counterexample :
    (2 : Int) ∈ (dataLines outC2).map LineData.pid ∧
    (parseLsofState outC2 (fun _ => "")).lookups.count 2 = 0 := by
  decide

/-- **C2 (amended)**: the command-line lookup is invoked exactly once per
distinct process id that receives a record in the result (its first
non-duplicate port creates the record), and never twice for any id; a pid
whose every line carries an already-seen port is never looked up. -/
theorem C2_lookup_once_per_record (output : String) (lookup : Int → String) :
    (parseLsofState output lookup).lookups.Nodup ∧
    ∀ pid : Int,
      (parseLsofState output lookup).lookups.count pid =
        if pid ∈ (parseLsofOutput output lookup).map Process.pid then 1
        else 0 := by
  have inv := parseLsofState_inv output lookup
  have hpids : (parseLsofOutput output lookup).map Process.pid
      = (parseLsofState output lookup).procs.map Prod.fst := by
    unfold parseLsofOutput finalizeProcs
    rw [List.map_map]
    exact List.map_congr_left (fun e he => by simpa using inv.pidField e he)
  constructor
  · rw [inv.lookupsEq]
    exact inv.pidsNodup
  · intro pid
    rw [inv.lookupsEq, hpids]
    by_cases hmem : pid ∈ (parseLsofState output lookup).procs.map Prod.fst
    · rw [if_pos hmem]
      exact List.count_eq_one_of_mem inv.pidsNodup hmem
    · rw [if_neg hmem]
      exact List.count_eq_zero_of_not_mem hmem

/-! ## Parser lemmas: order of same-PID lines (C3) -/

/-- The final (sorted) port list of the record of `pid`, `[]` if `pid` got
no record — the "final port set for that id" observed by C3. -/
def portsOfPid (output : String) (lookup : Int → String) (pid : Int) :
    List Int :=
  (((parseLsofOutput output lookup).find? (fun p => p.pid == pid)).map
    Process.ports).getD []

/-- Two accumulator entries that agree on everything the final port
extraction can observe: key, pid field, and the port list up to order. -/
def entryEquiv (e e' : Int × Process) : Prop :=
  e.1 = e'.1 ∧ e.2.pid = e'.2.pid ∧ e.2.ports.Perm e'.2.ports

/-- Two parse states that agree up to the order of ports inside records
and the order of `seenPorts`. -/
def StEquiv (st st' : ParseState) : Prop :=
  List.Forall₂ entryEquiv st.procs st'.procs ∧
  ∀ q : Int, q ∈ st.seenPorts ↔ q ∈ st'.seenPorts

theorem entryEquiv_refl (e : Int × Process) : entryEquiv e e :=
  ⟨rfl, rfl, List.Perm.refl _⟩

theorem StEquiv_refl (st : ParseState) : StEquiv st st :=
  ⟨List.forall₂_same.mpr (fun e _ => entryEquiv_refl e), fun _ => Iff.rfl⟩

theorem StEquiv_of_eq {st st' : ParseState} (h : st = st') : StEquiv st st' :=
  h ▸ StEquiv_refl st

theorem find?_isSome_congr {l l' : List (Int × Process)} {pid : Int}
    (h : List.Forall₂ entryEquiv l l') :
    (l.find? (fun e => e.1 == pid)).isSome
      = (l'.find? (fun e => e.1 == pid)).isSome := by
  induction h with
  | nil => rfl
  | @cons e e' t t' he ht ih =>
    by_cases hk : e.1 == pid
    · have hk' : (e'.1 == pid) = true := by rw [← he.1]; exact hk
      rw [List.find?_cons_of_pos (p := fun e => e.1 == pid) t hk,
        List.find?_cons_of_pos (p := fun e => e.1 == pid) t' hk']
      rfl
    · have hk' : ¬(e'.1 == pid) = true := by rw [← he.1]; exact hk
      rw [List.find?_cons_of_neg (p := fun e => e.1 == pid) t hk,
        List.find?_cons_of_neg (p := fun e => e.1 == pid) t' hk']
      exact ih

theorem updatePorts_forall₂ {l l' : List (Int × Process)} {pid port : Int}
    (h : List.Forall₂ entryEquiv l l') :
    List.Forall₂ entryEquiv (updatePorts l pid port)
      (updatePorts l' pid port) := by
  induction h with
  | nil => exact List.Forall₂.nil
  | @cons e e' t t' he ht ih =>
    simp only [updatePorts]
    by_cases hk : e.1 == pid
    · have hk' : (e'.1 == pid) = true := by rw [← he.1]; exact hk
      rw [if_pos hk, if_pos hk']
      exact List.Forall₂.cons ⟨he.1, he.2.1, he.2.2.append_right _⟩ ht
    · have hk' : ¬(e'.1 == pid) = true := by rw [← he.1]; exact hk
      rw [if_neg hk, if_neg hk']
      exact List.Forall₂.cons he ih

theorem applyData_equiv {st st' : ParseState} (lookup : Int → String)
    (d : LineData) (h : StEquiv st st') :
    StEquiv (applyData lookup st d) (applyData lookup st' d) := by
  unfold applyData
  by_cases hseen : d.port ∈ st.seenPorts
  · rw [if_pos hseen, if_pos ((h.2 d.port).mp hseen)]
    exact h
  · rw [if_neg hseen, if_neg (fun hmem => hseen ((h.2 d.port).mpr hmem))]
    have hsome := @find?_isSome_congr _ _ d.pid h.1
    have hseen' : ∀ q : Int,
        q ∈ d.port :: st.seenPorts ↔ q ∈ d.port :: st'.seenPorts := by
      intro q
      simp only [List.mem_cons]
      exact or_congr Iff.rfl (h.2 q)
    cases hfind : st.procs.find? (fun e => e.1 == d.pid) with
    | some e0 =>
      cases hfind' : st'.procs.find? (fun e => e.1 == d.pid) with
      | some e0' => exact ⟨updatePorts_forall₂ h.1, hseen'⟩
      | none => rw [hfind, hfind'] at hsome; simp at hsome
    | none =>
      cases hfind' : st'.procs.find? (fun e => e.1 == d.pid) with
      | some e0' => rw [hfind, hfind'] at hsome; simp at hsome
      | none =>
        exact ⟨List.rel_append h.1
          (List.Forall₂.cons (entryEquiv_refl _) List.Forall₂.nil), hseen'⟩

theorem processLine_equiv {st st' : ParseState} (lookup : Int → String)
    (i : Nat) (line : String) (h : StEquiv st st') :
    StEquiv (processLine lookup st i line) (processLine lookup st' i line) := by
  unfold processLine
  by_cases hi : i = 0
  · rw [if_pos hi, if_pos hi]; exact h
  · rw [if_neg hi, if_neg hi]
    cases hq : lineContent line with
    | none => exact h
    | some d => exact applyData_equiv lookup d h

theorem parseLinesAux_equiv (lookup : Int → String) (ls : List String) :
    ∀ (i : Nat) {st st' : ParseState}, StEquiv st st' →
      StEquiv (parseLinesAux lookup st i ls) (parseLinesAux lookup st' i ls) := by
  induction ls with
  | nil => intro i st st' h; exact h
  | cons l ls ih =>
    intro i st st' h
    exact ih (i + 1) (processLine_equiv lookup i l h)

theorem applyData_skip (lookup : Int → String) {st : ParseState}
    {d : LineData} (h : d.port ∈ st.seenPorts) :
    applyData lookup st d = st := by
  unfold applyData
  rw [if_pos h]

theorem applyData_seen_mem (lookup : Int → String) (st : ParseState)
    (d : LineData) (q : Int) :
    q ∈ (applyData lookup st d).seenPorts ↔ q = d.port ∨ q ∈ st.seenPorts := by
  unfold applyData
  by_cases h : d.port ∈ st.seenPorts
  · rw [if_pos h]
    constructor
    · exact Or.inr
    · rintro (rfl | hq)
      · exact h
      · exact hq
  · rw [if_neg h]
    cases hfind : st.procs.find? (fun e => e.1 == d.pid) <;>
      simp [List.mem_cons]

theorem applyData_found (lookup : Int → String) {st : ParseState}
    {d : LineData} {e0 : Int × Process} (hs : d.port ∉ st.seenPorts)
    (hf : st.procs.find? (fun e => e.1 == d.pid) = some e0) :
    applyData lookup st d =
      { st with procs := updatePorts st.procs d.pid d.port,
                seenPorts := d.port :: st.seenPorts } := by
  unfold applyData
  rw [if_neg hs, hf]

theorem applyData_new (lookup : Int → String) {st : ParseState}
    {d : LineData} (hs : d.port ∉ st.seenPorts)
    (hf : st.procs.find? (fun e => e.1 == d.pid) = none) :
    applyData lookup st d =
      { procs := st.procs ++
          [(d.pid, { pid := d.pid, ports := [d.port], name := d.name,
                     user := d.user, command := lookup d.pid })],
        seenPorts := d.port :: st.seenPorts,
        lookups := st.lookups ++ [d.pid] } := by
  unfold applyData
  rw [if_neg hs, hf]

theorem updatePorts_comm (l : List (Int × Process)) (pid x y : Int) :
    List.Forall₂ entryEquiv (updatePorts (updatePorts l pid x) pid y)
      (updatePorts (updatePorts l pid y) pid x) := by
  induction l with
  | nil => exact List.Forall₂.nil
  | cons e es ih =>
    by_cases hk : e.1 == pid
    · simp only [updatePorts, if_pos hk]
      refine List.Forall₂.cons ⟨rfl, rfl, ?_⟩
        (List.forall₂_same.mpr fun e _ => entryEquiv_refl e)
      rw [List.append_assoc, List.append_assoc]
      exact List.Perm.append_left _ (List.Perm.swap y x [])
    · simp only [updatePorts, if_neg hk]
      exact List.Forall₂.cons (entryEquiv_refl e) ih

theorem updatePorts_append_fresh {l : List (Int × Process)} {pid : Int}
    (h : ∀ e ∈ l, ¬(e.1 == pid) = true) (pr : Process) (q : Int) :
    updatePorts (l ++ [(pid, pr)]) pid q
      = l ++ [(pid, { pr with ports := pr.ports ++ [q] })] := by
  induction l with
  | nil => simp [updatePorts]
  | cons e es ih =>
    have hk : ¬(e.1 == pid) = true := h e (List.mem_cons_self ..)
    simp only [List.cons_append, updatePorts, if_neg hk, List.append_eq]
    rw [ih (fun e' he' => h e' (List.mem_cons_of_mem _ he'))]

theorem find?_key_isSome {l : List (Int × Process)} {pid : Int} :
    (l.find? (fun e => e.1 == pid)).isSome ↔ pid ∈ l.map Prod.fst := by
  rw [List.find?_isSome]
  constructor
  · rintro ⟨e, he, hk⟩
    exact List.mem_map.mpr ⟨e, he, by simpa using hk⟩
  · intro hm
    rcases List.mem_map.mp hm with ⟨e, he, hk⟩
    exact ⟨e, he, by simp [hk]⟩

theorem applyData_equiv_same (lookup : Int → String) {st : ParseState}
    {da db : LineData} (hpid : da.pid = db.pid) (hport : da.port = db.port) :
    StEquiv (applyData lookup st da) (applyData lookup st db) := by
  unfold applyData
  rw [hpid, hport]
  by_cases h : db.port ∈ st.seenPorts
  · rw [if_pos h, if_pos h]
    exact StEquiv_refl st
  · rw [if_neg h, if_neg h]
    cases hfind : st.procs.find? (fun e => e.1 == db.pid) with
    | some e0 => exact StEquiv_refl _
    | none =>
      exact ⟨List.rel_append
        (List.forall₂_same.mpr fun e _ => entryEquiv_refl e)
        (List.Forall₂.cons ⟨rfl, rfl, List.Perm.refl _⟩ List.Forall₂.nil),
        fun q => Iff.rfl⟩

theorem applyData_found_mk (lookup : Int → String)
    (procs : List (Int × Process)) (seen lks : List Int) (d : LineData)
    (e0 : Int × Process) (hs : d.port ∉ seen)
    (hf : procs.find? (fun e => e.1 == d.pid) = some e0) :
    applyData lookup ⟨procs, seen, lks⟩ d =
      ⟨updatePorts procs d.pid d.port, d.port :: seen, lks⟩ :=
  applyData_found lookup hs hf

theorem applyData_new_mk (lookup : Int → String)
    (procs : List (Int × Process)) (seen lks : List Int) (d : LineData)
    (hs : d.port ∉ seen)
    (hf : procs.find? (fun e => e.1 == d.pid) = none) :
    applyData lookup ⟨procs, seen, lks⟩ d =
      ⟨procs ++
          [(d.pid, { pid := d.pid, ports := [d.port], name := d.name,
                     user := d.user, command := lookup d.pid })],
        d.port :: seen, lks ++ [d.pid]⟩ :=
  applyData_new lookup hs hf

theorem applyData_swap (lookup : Int → String) (st : ParseState)
    {da db : LineData} (hpid : da.pid = db.pid) :
    StEquiv (applyData lookup (applyData lookup st da) db)
      (applyData lookup (applyData lookup st db) da) := by
  by_cases ha : da.port ∈ st.seenPorts
  · rw [applyData_skip lookup ha, applyData_skip lookup
      ((applyData_seen_mem lookup st db da.port).mpr (Or.inr ha))]
    exact StEquiv_refl _
  · by_cases hb : db.port ∈ st.seenPorts
    · rw [applyData_skip lookup hb, applyData_skip lookup
        ((applyData_seen_mem lookup st da db.port).mpr (Or.inr hb))]
      exact StEquiv_refl _
    · by_cases hpp : da.port = db.port
      · rw [applyData_skip lookup
          ((applyData_seen_mem lookup st da db.port).mpr (Or.inl hpp.symm)),
          applyData_skip lookup
          ((applyData_seen_mem lookup st db da.port).mpr (Or.inl hpp))]
        exact applyData_equiv_same lookup hpid hpp
      · have hb2 : db.port ∉ da.port :: st.seenPorts := by
          simp only [List.mem_cons]
          rintro (h | h)
          · exact hpp h.symm
          · exact hb h
        have ha2 : da.port ∉ db.port :: st.seenPorts := by
          simp only [List.mem_cons]
          rintro (h | h)
          · exact hpp h
          · exact ha h
        have hmemcons : ∀ q : Int, q ∈ db.port :: da.port :: st.seenPorts ↔
            q ∈ da.port :: db.port :: st.seenPorts := by
          intro q
          simp only [List.mem_cons]
          tauto
        cases hfind : st.procs.find? (fun e => e.1 == da.pid) with
        | some e0 =>
          have hfindb : st.procs.find? (fun e => e.1 == db.pid) = some e0 := by
            rw [← hpid]
            exact hfind
          rw [applyData_found lookup ha hfind, applyData_found lookup hb hfindb]
          have hkey : da.pid ∈ st.procs.map Prod.fst :=
            find?_key_isSome.mp (by simp [hfind])
          have hsome1 :
              ((updatePorts st.procs da.pid da.port).find?
                (fun e => e.1 == db.pid)).isSome := by
            rw [find?_key_isSome, updatePorts_keys, ← hpid]
            exact hkey
          rcases Option.isSome_iff_exists.mp hsome1 with ⟨e1, hf1⟩
          have hsome2 :
              ((updatePorts st.procs db.pid db.port).find?
                (fun e => e.1 == da.pid)).isSome := by
            rw [find?_key_isSome, updatePorts_keys]
            exact hkey
          rcases Option.isSome_iff_exists.mp hsome2 with ⟨e2, hf2⟩
          rw [applyData_found_mk lookup _ _ _ db e1 hb2 hf1,
            applyData_found_mk lookup _ _ _ da e2 ha2 hf2]
          refine ⟨?_, hmemcons⟩
          show List.Forall₂ entryEquiv
            (updatePorts (updatePorts st.procs da.pid da.port) db.pid db.port)
            (updatePorts (updatePorts st.procs db.pid db.port) da.pid da.port)
          rw [← hpid]
          exact updatePorts_comm st.procs da.pid da.port db.port
        | none =>
          have hfindb : st.procs.find? (fun e => e.1 == db.pid) = none := by
            rw [← hpid]
            exact hfind
          have hfresh : ∀ e ∈ st.procs, ¬(e.1 == da.pid) = true :=
            List.find?_eq_none.mp hfind
          rw [applyData_new lookup ha hfind, applyData_new lookup hb hfindb]
          have hf1 : (st.procs ++
              [(da.pid, Process.mk da.pid [da.port] da.name da.user
                  (lookup da.pid))]).find? (fun e => e.1 == db.pid)
              = some (da.pid, Process.mk da.pid [da.port] da.name da.user
                  (lookup da.pid)) := by
            rw [← hpid]
            simp [List.find?_append, hfind]
          have hf2 : (st.procs ++
              [(db.pid, Process.mk db.pid [db.port] db.name db.user
                  (lookup db.pid))]).find? (fun e => e.1 == da.pid)
              = some (db.pid, Process.mk db.pid [db.port] db.name db.user
                  (lookup db.pid)) := by
            rw [hpid]
            simp [List.find?_append, hfindb]
          rw [applyData_found_mk lookup _ _ _ db _ hb2 hf1,
            applyData_found_mk lookup _ _ _ da _ ha2 hf2]
          refine ⟨?_, hmemcons⟩
          have hfreshb : ∀ e ∈ st.procs, ¬(e.1 == db.pid) = true :=
            List.find?_eq_none.mp hfindb
          show List.Forall₂ entryEquiv
            (updatePorts (st.procs ++
              [(da.pid, Process.mk da.pid [da.port] da.name da.user
                  (lookup da.pid))]) db.pid db.port)
            (updatePorts (st.procs ++
              [(db.pid, Process.mk db.pid [db.port] db.name db.user
                  (lookup db.pid))]) da.pid da.port)
          have e1 : updatePorts (st.procs ++
              [(da.pid, Process.mk da.pid [da.port] da.name da.user
                  (lookup da.pid))]) db.pid db.port
              = st.procs ++
              [(da.pid, Process.mk da.pid [da.port, db.port] da.name da.user
                  (lookup da.pid))] := by
            rw [← hpid]
            exact updatePorts_append_fresh hfresh _ db.port
          have e2 : updatePorts (st.procs ++
              [(db.pid, Process.mk db.pid [db.port] db.name db.user
                  (lookup db.pid))]) da.pid da.port
              = st.procs ++
              [(db.pid, Process.mk db.pid [db.port, da.port] db.name db.user
                  (lookup db.pid))] := by
            rw [hpid]
            exact updatePorts_append_fresh hfreshb _ da.port
          rw [e1, e2]
          refine List.rel_append
            (List.forall₂_same.mpr fun e _ => entryEquiv_refl e)
            (List.Forall₂.cons ⟨by simpa using hpid, by simpa using hpid, ?_⟩
              List.Forall₂.nil)
          show [da.port, db.port].Perm [db.port, da.port]
          exact List.Perm.swap db.port da.port []

theorem parseLinesAux_append (lookup : Int → String) (xs : List String) :
    ∀ (ys : List String) (st : ParseState) (i : Nat),
      parseLinesAux lookup st i (xs ++ ys)
        = parseLinesAux lookup (parseLinesAux lookup st i xs)
            (i + xs.length) ys := by
  induction xs with
  | nil => intro ys st i; simp [parseLinesAux]
  | cons x xs ih =>
    intro ys st i
    rw [List.cons_append]
    show parseLinesAux lookup (processLine lookup st i x) (i + 1) (xs ++ ys) = _
    rw [ih ys (processLine lookup st i x) (i + 1), List.length_cons]
    congr 1
    omega

theorem findPorts_congr {l l' : List (Int × Process)} (pid : Int)
    (h : List.Forall₂ entryEquiv l l') :
    ((finalizeProcs l).find? (fun p => p.pid == pid)).map Process.ports
      = ((finalizeProcs l').find? (fun p => p.pid == pid)).map Process.ports := by
  induction h with
  | nil => rfl
  | @cons e e' t t' he ht ih =>
    show ((finalizeProcs (e :: t)).find? (fun p => p.pid == pid)).map
        Process.ports
      = ((finalizeProcs (e' :: t')).find? (fun p => p.pid == pid)).map
        Process.ports
    by_cases hk : (e.2.pid == pid) = true
    · have hk' : (e'.2.pid == pid) = true := by rw [← he.2.1]; exact hk
      have hkr : (({ e.2 with ports := e.2.ports.insertionSort (· ≤ ·) }
          : Process).pid == pid) = true := hk
      have hkr' : (({ e'.2 with ports := e'.2.ports.insertionSort (· ≤ ·) }
          : Process).pid == pid) = true := hk'
      unfold finalizeProcs
      rw [List.map_cons, List.map_cons,
        List.find?_cons_of_pos (p := fun r : Process => r.pid == pid) _ hkr,
        List.find?_cons_of_pos (p := fun r : Process => r.pid == pid) _ hkr']
      have hports : e.2.ports.insertionSort (· ≤ ·)
          = e'.2.ports.insertionSort (· ≤ ·) := by
        refine List.eq_of_perm_of_sorted ?_ (List.sorted_insertionSort _ _)
          (List.sorted_insertionSort _ _)
        exact ((List.perm_insertionSort _ _).trans he.2.2).trans
          (List.perm_insertionSort _ _).symm
      simp [Option.map_some', hports]
    · have hk' : ¬(e'.2.pid == pid) = true := by rw [← he.2.1]; exact hk
      have hkr : ¬(({ e.2 with ports := e.2.ports.insertionSort (· ≤ ·) }
          : Process).pid == pid) = true := hk
      have hkr' : ¬(({ e'.2 with ports := e'.2.ports.insertionSort (· ≤ ·) }
          : Process).pid == pid) = true := hk'
      unfold finalizeProcs
      rw [List.map_cons, List.map_cons,
        List.find?_cons_of_neg (p := fun r : Process => r.pid == pid) _ hkr,
        List.find?_cons_of_neg (p := fun r : Process => r.pid == pid) _ hkr']
      exact ih

theorem portsOfPid_congr {st st' : ParseState} (pid : Int)
    (h : StEquiv st st') :
    ((finalizeProcs st.procs).find? (fun p => p.pid == pid)).map Process.ports
      = ((finalizeProcs st'.procs).find?
          (fun p => p.pid == pid)).map Process.ports :=
  findPorts_congr pid h.1

theorem processLine_data (lookup : Int → String) {st : ParseState}
    {i : Nat} (hi : i ≠ 0) {line : String} {d : LineData}
    (h : lineContent line = some d) :
    processLine lookup st i line = applyData lookup st d := by
  unfold processLine
  rw [if_neg hi, h]

/-- lsof output: PID 1 binds port 3000 (line 1), PID 2 reports port 3000 on
another interface (line 2, dropped by the dedup), PID 1 binds port 4000
(line 3). -/
def outC3a : String :=
  "COMMAND PID USER FD TYPE DEVICE SIZE NODE NAME\na 1 u f t d s TCP *:3000 (LISTEN)\nb 2 u f t d s TCP *:3000 (LISTEN)\na 1 u f t d s TCP *:4000 (LISTEN)"

/-- `outC3a` with the two data lines of PID 1 permuted (the PID 2 line
keeps its position): now PID 2's line claims port 3000 first and PID 1
loses it. -/
def outC3b : String :=
  "COMMAND PID USER FD TYPE DEVICE SIZE NODE NAME\na 1 u f t d s TCP *:4000 (LISTEN)\nb 2 u f t d s TCP *:3000 (LISTEN)\na 1 u f t d s TCP *:3000 (LISTEN)"

/-- **C3, counterexample**: permuting the data lines that belong to PID 1
(line 2, owned by PID 2, keeps its position) changes PID 1's final port
set from `{3000, 4000}` to `{4000}`: the claim is false as stated, because
the `seenPorts` dedup is global across PIDs. -/
theorem C3_counterexample :
    portsOfPid outC3a lkW 1 = [3000, 4000] ∧
    portsOfPid outC3b lkW 1 = [4000] ∧
    portsOfPid outC3a lkW 1 ≠ portsOfPid outC3b lkW 1 := by
  decide

/-- **C3 (amended)**: swapping two *adjacent* data lines that belong to
one and the same process id yields the same final port set for every
process id (the original claim, which allows the permuted lines to move
across another id's line carrying a shared port, is refuted by
`C3_counterexample`). -/
theorem C3_adjacent_swap (out1 out2 : String) (lookup : Int → String)
    (pre : List String) (a b : String) (post : List String)
    (da db : LineData)
    (h1 : goSplit out1 '\n' = pre ++ a :: b :: post)
    (h2 : goSplit out2 '\n' = pre ++ b :: a :: post)
    (hpre : pre ≠ [])
    (ha : lineContent a = some da) (hb : lineContent b = some db)
    (hpid : da.pid = db.pid) (pid : Int) :
    portsOfPid out1 lookup pid = portsOfPid out2 lookup pid := by
  unfold portsOfPid parseLsofOutput parseLsofState
  rw [h1, h2,
    parseLinesAux_append lookup pre (a :: b :: post) ParseState.init 0,
    parseLinesAux_append lookup pre (b :: a :: post) ParseState.init 0]
  set st0 := parseLinesAux lookup ParseState.init 0 pre with hst0
  have hn1 : 0 + pre.length ≠ 0 := by
    cases pre with
    | nil => exact absurd rfl hpre
    | cons x xs => simp
  have hn2 : 0 + pre.length + 1 ≠ 0 := by omega
  have eL : parseLinesAux lookup st0 (0 + pre.length) (a :: b :: post)
      = parseLinesAux lookup (applyData lookup (applyData lookup st0 da) db)
          (0 + pre.length + 1 + 1) post := by
    show parseLinesAux lookup
        (processLine lookup (processLine lookup st0 (0 + pre.length) a)
          (0 + pre.length + 1) b) (0 + pre.length + 1 + 1) post = _
    rw [processLine_data lookup hn1 ha, processLine_data lookup hn2 hb]
  have eR : parseLinesAux lookup st0 (0 + pre.length) (b :: a :: post)
      = parseLinesAux lookup (applyData lookup (applyData lookup st0 db) da)
          (0 + pre.length + 1 + 1) post := by
    show parseLinesAux lookup
        (processLine lookup (processLine lookup st0 (0 + pre.length) b)
          (0 + pre.length + 1) a) (0 + pre.length + 1 + 1) post = _
    rw [processLine_data lookup hn1 hb, processLine_data lookup hn2 ha]
  rw [eL, eR]
  have hequiv := parseLinesAux_equiv lookup post (0 + pre.length + 1 + 1)
    (applyData_swap lookup st0 hpid)
  rw [portsOfPid_congr pid hequiv]

def preSwap : List String := ["COMMAND PID USER FD TYPE DEVICE SIZE NODE NAME"]

def lineSwapA : String := "a 1 u f t d s TCP *:3000 (LISTEN)"

def lineSwapB : String := "a 1 u f t d s TCP *:4000 (LISTEN)"

def outSwapAB : String :=
  "COMMAND PID USER FD TYPE DEVICE SIZE NODE NAME\na 1 u f t d s TCP *:3000 (LISTEN)\na 1 u f t d s TCP *:4000 (LISTEN)"

def outSwapBA : String :=
  "COMMAND PID USER FD TYPE DEVICE SIZE NODE NAME\na 1 u f t d s TCP *:4000 (LISTEN)\na 1 u f t d s TCP *:3000 (LISTEN)"

def dataSwapA : LineData := ⟨1, 3000, "a", "u"⟩

def dataSwapB : LineData := ⟨1, 4000, "a", "u"⟩

/-- Witness for the amended C3 at a concrete pair of outputs. -/
theorem C3_adjacent_swap_witness :
    goSplit outSwapAB '\n' = preSwap ++ lineSwapA :: lineSwapB :: [] ∧
    goSplit outSwapBA '\n' = preSwap ++ lineSwapB :: lineSwapA :: [] ∧
    lineContent lineSwapA = some dataSwapA ∧
    lineContent lineSwapB = some dataSwapB ∧
    portsOfPid outSwapAB lkW 1 = portsOfPid outSwapBA lkW 1 :=
  ⟨by decide, by decide, by decide, by decide,
    C3_adjacent_swap outSwapAB outSwapBA lkW preSwap lineSwapA lineSwapB []
      dataSwapA dataSwapB (by decide) (by decide) (by decide) (by decide)
      (by decide) (by decide) 1⟩

/-! ## model.go: the interactive state machine

The Bubbletea `Model` of model.go.  `statusTime` (wall-clock, display
only) is not modelled; `lastError error` is modelled as `Option String`.
`cursor` keeps Go's `int` type; `killIndex` is modelled as `Nat` (in the
source it is an `int` that is only ever `0` or incremented from `0`).
The `selected` map is an association list with Go map semantics
(lookup of a missing key yields `false`). -/

def SystemPortThreshold : Int := 1024

structure Model where
  processes : List Process
  cursor : Int
  selected : List (Int × Bool)
  showSystemPorts : Bool
  confirming : Bool
  toKill : List Process
  killIndex : Nat
  statusMessage : String
  width : Int
  height : Int
  initialFilter : String
  filterApplied : Bool
  searching : Bool
  searchQuery : String
  lastError : Option String
  deriving Repr, DecidableEq

/-- `m.selected[pid]` (Go map read; `false` when absent). -/
def selGet (sel : List (Int × Bool)) (pid : Int) : Bool :=
  ((sel.find? (fun e => e.1 == pid)).map Prod.snd).getD false

/-- `m.selected[pid] = v` (Go map write). -/
def selSet (sel : List (Int × Bool)) (pid : Int) (v : Bool) :
    List (Int × Bool) :=
  match sel.find? (fun e => e.1 == pid) with
  | some _ => sel.map (fun e => if e.1 == pid then (e.1, v) else e)
  | none => sel ++ [(pid, v)]

/-- `delete(m.selected, pid)`. -/
def selDelete (sel : List (Int × Bool)) (pid : Int) : List (Int × Bool) :=
  sel.filter (fun e => !(e.1 == pid))

/-- `NewModel` from model.go. -/
def NewModel (initialFilter : String) : Model :=
  { processes := [], cursor := 0, selected := [], showSystemPorts := false,
    confirming := false, toKill := [], killIndex := 0, statusMessage := "",
    width := 0, height := 0, initialFilter := initialFilter,
    filterApplied := false, searching := false, searchQuery := "",
    lastError := none }

/-- The body of `filteredProcesses`'s loop as a predicate: the loop
`continue`s (drops `p`) exactly when this is false.  The first conjunct is
the system-port filter, the second the search filter. -/
def visiblePred (m : Model) (p : Process) : Bool :=
  (m.showSystemPorts || p.ports.any (fun port => port ≥ SystemPortThreshold))
  && (m.searchQuery == "" ||
      (goContains (goToLower p.name) (goToLower m.searchQuery) ||
       goContains (goToLower p.command) (goToLower m.searchQuery) ||
       p.ports.any (fun port => goContains (goItoa port) m.searchQuery)))

/-- `Model.filteredProcesses` from model.go. -/
def Model.filteredProcesses (m : Model) : List Process :=
  m.processes.filter (visiblePred m)

/-- `Model.selectedCount` from model.go. -/
def Model.selectedCount (m : Model) : Nat :=
  (m.filteredProcesses.filter (fun p => selGet m.selected p.pid)).length

/-- `Model.getSelectedProcesses` from model.go. -/
def Model.getSelectedProcesses (m : Model) : List Process :=
  m.filteredProcesses.filter (fun p => selGet m.selected p.pid)

/-- `Model.applyInitialFilter` from model.go: `Atoi` succeeds → exact port
match pre-selects; otherwise case-insensitive substring on name/command. -/
def Model.applyInitialFilter (m : Model) : Model :=
  if m.initialFilter = "" then m
  else
    match goAtoi m.initialFilter with
    | some port =>
      { m with selected := m.processes.foldl (fun sel p =>
          if p.ports.any (fun q => q == port) then selSet sel p.pid true
          else sel) m.selected }
    | none =>
      { m with selected := m.processes.foldl (fun sel p =>
          if goContains (goToLower p.name) (goToLower m.initialFilter) ||
             goContains (goToLower p.command) (goToLower m.initialFilter)
          then selSet sel p.pid true else sel) m.selected }

/-- The cursor re-clamp snippet that model.go repeats after every
operation that can shrink the filtered view:
`if m.cursor >= len(filtered) { m.cursor = max(0, len(filtered)-1) }`. -/
def Model.clampCursor (m : Model) : Model :=
  let filtered := m.filteredProcesses
  if m.cursor ≥ (filtered.length : Int) then
    { m with cursor := max 0 ((filtered.length : Int) - 1) }
  else m

/-- `sort.Slice(m.processes, ...)` by `LowestPort` ascending.  Go's slice
sort is unstable; we fix one sorted order — no theorem below depends on
the relative order of records with equal lowest ports. -/
def sortByLowestPort (ps : List Process) : List Process :=
  ps.insertionSort (fun p q => p.lowestPort ≤ q.lowestPort)

/-- The key presses that `Update` distinguishes.  A printable character
arrives from Bubbletea as a `KeyRunes` message carrying its text; the
other constructors are the distinct key types used by the key map. -/
inductive KeyPress where
  | up
  | down
  | enter
  | esc
  | backspace
  | space
  | tab
  | ctrlC
  | runes (s : String)
  deriving Repr, DecidableEq

/-- keys.go: `key.Matches(msg, keys.Up)` — "up", "k". -/
def matchUp : KeyPress → Bool
  | .up => true
  | .runes s => s == "k"
  | _ => false

/-- keys.go: `keys.Down` — "down", "j". -/
def matchDown : KeyPress → Bool
  | .down => true
  | .runes s => s == "j"
  | _ => false

/-- keys.go: `keys.Kill` — "enter", "d". -/
def matchKill : KeyPress → Bool
  | .enter => true
  | .runes s => s == "d"
  | _ => false

/-- keys.go: `keys.Refresh` — "r". -/
def matchRefresh : KeyPress → Bool
  | .runes s => s == "r"
  | _ => false

/-- keys.go: `keys.Toggle` — "s". -/
def matchToggle : KeyPress → Bool
  | .runes s => s == "s"
  | _ => false

/-- keys.go: `keys.Quit` — "q", "ctrl+c". -/
def matchQuit : KeyPress → Bool
  | .ctrlC => true
  | .runes s => s == "q"
  | _ => false

/-- keys.go: `keys.Confirm` — "y". -/
def matchConfirm : KeyPress → Bool
  | .runes s => s == "y"
  | _ => false

/-- keys.go: `keys.Cancel` — "n", "esc". -/
def matchCancel : KeyPress → Bool
  | .esc => true
  | .runes s => s == "n"
  | _ => false

/-- keys.go: `keys.Select` — " " (space), "tab". -/
def matchSelect : KeyPress → Bool
  | .space => true
  | .tab => true
  | _ => false

/-- keys.go: `keys.SelectAll` — "a". -/
def matchSelectAll : KeyPress → Bool
  | .runes s => s == "a"
  | _ => false

/-- keys.go: `keys.Search` — "/". -/
def matchSearch : KeyPress → Bool
  | .runes s => s == "/"
  | _ => false

/-- messages.go plus Bubbletea's built-in messages, as dispatched by the
`Update` switch. -/
inductive Msg where
  | key (k : KeyPress)
  | window (w h : Int)
  | tick
  | refresh (processes : List Process) (err : Option String)
  | killResult (success : Bool) (pid port remaining : Int)
  deriving Repr, DecidableEq

/-- The `tea.Cmd` values `Update` returns: `nil`, `tea.Quit`,
`m.refreshPorts()`, `m.tickCmd()`,
`tea.Batch(m.refreshPorts(), m.tickCmd())` (the only `Batch` in Update),
and `m.killProcess(pid, port, remaining)`. -/
inductive Cmd where
  | none
  | quit
  | refreshPorts
  | tickCmd
  | batchRefreshTick
  | killCmd (pid port remaining : Int)
  deriving Repr, DecidableEq

def defaultProcess : Process := ⟨0, [], "", "", ""⟩


/-- `Update`, `confirming` branch of the key handler (model.go): `y`
starts the batch kill, `n`/`esc` cancels, anything else is ignored. -/
def Model.updateConfirmingKey (m : Model) (k : KeyPress) : Model × Cmd :=
  if matchConfirm k then
    let m1 := { m with confirming := false }
    if m1.toKill.length > 0 then
      let m2 := { m1 with killIndex := 0 }
      let p := m2.toKill.headD defaultProcess
      (m2, .killCmd p.pid p.lowestPort ((m2.toKill.length : Int) - 1))
    else (m1, .none)
  else if matchCancel k then
    ({ m with
        confirming := false
        toKill := []
        statusMessage := "Cancelled" }, .none)
  else (m, .none)

/-- `Update`, `searching` branch of the key handler (model.go), dispatched
on the Bubbletea key type.  Go's byte-level `m.searchQuery[:len-1]`
backspace is modelled as dropping the last character. -/
def Model.updateSearchingKey (m : Model) (k : KeyPress) : Model × Cmd :=
  match k with
  | .esc =>
    (({ m with searching := false, searchQuery := "" }).clampCursor, .none)
  | .backspace =>
    if m.searchQuery.length > 0 then
      (({ m with
          searchQuery := String.mk m.searchQuery.toList.dropLast
        }).clampCursor, .none)
    else (m, .none)
  | .enter => ({ m with searching := false }, .none)
  | .runes s =>
    ({ m with searchQuery := m.searchQuery ++ s, cursor := 0 }, .none)
  | _ => (m, .none)

/-- `Update`, normal-mode branch of the key handler (model.go): the
`switch { case key.Matches ... }` chain, in source order. -/
def Model.updateNormalKey (m : Model) (k : KeyPress) : Model × Cmd :=
  if matchQuit k then (m, .quit)
  else if matchSearch k then ({ m with searching := true }, .none)
  else if matchCancel k then
    if m.searchQuery ≠ "" then
      ({ m with searchQuery := "", cursor := 0 }, .none)
    else (m, .none)
  else if matchUp k then
    (if m.cursor > 0 then { m with cursor := m.cursor - 1 } else m, .none)
  else if matchDown k then
    let filtered := m.filteredProcesses
    (if m.cursor < (filtered.length : Int) - 1 then
      { m with cursor := m.cursor + 1 }
    else m, .none)
  else if matchSelect k then
    let filtered := m.filteredProcesses
    if filtered.length > 0 ∧ m.cursor < (filtered.length : Int) then
      let p := filtered.getD m.cursor.toNat defaultProcess
      ({ m with
         selected := selSet m.selected p.pid (!selGet m.selected p.pid) },
       .none)
    else (m, .none)
  else if matchSelectAll k then
    let filtered := m.filteredProcesses
    let allSelected := filtered.all (fun p => selGet m.selected p.pid)
    let sel2 := filtered.foldl
      (fun sel p => selSet sel p.pid (!allSelected)) m.selected
    ({ m with selected := sel2 }, .none)
  else if matchKill k then
    let filtered := m.filteredProcesses
    if filtered.length = 0 then (m, .none)
    else
      let sel := m.getSelectedProcesses
      if sel.length > 0 then
        ({ m with toKill := sel, confirming := true }, .none)
      else if m.cursor < (filtered.length : Int) then
        ({ m with
            toKill := [filtered.getD m.cursor.toNat defaultProcess]
            confirming := true }, .none)
      else (m, .none)
  else if matchRefresh k then
    ({ m with statusMessage := "Refreshing..." }, .refreshPorts)
  else if matchToggle k then
    let m1 := ({ m with showSystemPorts := !m.showSystemPorts }).clampCursor
    ({ m1 with statusMessage :=
        if m1.showSystemPorts then "Showing all ports"
        else "Showing user ports only (>=1024)" }, .none)
  else (m, .none)

/-- `Update`, `case tea.KeyMsg`: dispatch on the three modes. -/
def Model.updateKey (m : Model) (k : KeyPress) : Model × Cmd :=
  if m.confirming then m.updateConfirmingKey k
  else if m.searching then m.updateSearchingKey k
  else m.updateNormalKey k

/-- `Update`, `case refreshMsg`: an error keeps the old snapshot; success
sorts and installs the new one, purges dead selections, applies the
one-shot CLI filter, and re-clamps the cursor. -/
def Model.updateRefresh (m : Model) (processes : List Process)
    (err : Option String) : Model × Cmd :=
  match err with
  | some e =>
    ({ m with lastError := some e, statusMessage := "Error scanning ports" },
     .none)
  | none =>
    let m1 := { m with
      lastError := none
      processes := sortByLowestPort processes }
    let existing := m1.processes.map Process.pid
    let m2 := { m1 with
      selected := m1.selected.filter (fun e => existing.contains e.1) }
    let m3 :=
      if m2.initialFilter ≠ "" ∧ ¬m2.filterApplied then
        ({ m2 with filterApplied := true }).applyInitialFilter
      else m2
    (m3.clampCursor, .none)

/-- `Update`, `case killResultMsg`: advance the batch cursor, deselect on
success, fire the next kill or finish with a status and a refresh. -/
def Model.updateKillResult (m : Model) (success : Bool) (pid port : Int) :
    Model × Cmd :=
  let m1 := { m with killIndex := m.killIndex + 1 }
  let m2 := if success then { m1 with selected := selDelete m1.selected pid }
            else m1
  if m2.killIndex < m2.toKill.length then
    let p := m2.toKill.getD m2.killIndex defaultProcess
    (m2, .killCmd p.pid p.lowestPort
      ((m2.toKill.length : Int) - (m2.killIndex : Int) - 1))
  else
    let killCount := m2.toKill.length
    let m3 := { m2 with
      toKill := []
      killIndex := 0
      statusMessage :=
        if killCount = 1 then
          if success then "Killed process on port " ++ goItoa port
          else "Failed to kill process " ++ goItoa pid
        else "Killed " ++ goItoa (killCount : Int) ++ " processes" }
    (m3, .refreshPorts)

/-- `Model.Update` from model.go, as a pure step
`Model → Msg → Model × Cmd`; the switch arms are the functions above.
`return m, nil` becomes `(m, Cmd.none)`. -/
def Model.update (m : Model) (msg : Msg) : Model × Cmd :=
  match msg with
  | .key k => m.updateKey k
  | .window w h => ({ m with width := w, height := h }, .none)
  | .tick =>
    if m.confirming then (m, .tickCmd) else (m, .batchRefreshTick)
  | .refresh processes err => m.updateRefresh processes err
  | .killResult success pid port _ => m.updateKillResult success pid port


/-! ## C4: the visibility filter -/

theorem toNat_charOfNat {n : Nat} (h : n < 55296) :
    (Char.ofNat n).toNat = n := by
  rw [Char.ofNat, dif_pos (Or.inl h)]
  rfl

theorem natDigitsAux_chars {fuel : Nat} : ∀ {n : Nat} {c : Char},
    c ∈ natDigitsAux fuel n → 48 ≤ c.toNat ∧ c.toNat ≤ 57 := by
  induction fuel with
  | zero => intro n c h; simp [natDigitsAux] at h
  | succ fuel ih =>
    intro n c h
    simp only [natDigitsAux] at h
    split at h
    · rcases List.mem_singleton.mp h with rfl
      rename_i h10
      rw [toNat_charOfNat (by omega)]
      omega
    · rcases List.mem_append.mp h with h' | h'
      · exact ih h'
      · rcases List.mem_singleton.mp h' with rfl
        have hmod : n % 10 < 10 := Nat.mod_lt _ (by omega)
        rw [toNat_charOfNat (by omega)]
        omega

theorem goItoa_chars {i : Int} {c : Char} (h : c ∈ (goItoa i).toList) :
    c.toNat = 45 ∨ (48 ≤ c.toNat ∧ c.toNat ≤ 57) := by
  unfold goItoa at h
  split at h
  · rcases List.mem_cons.mp h with rfl | h'
    · left; rfl
    · right; exact natDigitsAux_chars h'
  · right; exact natDigitsAux_chars h

theorem map_goToLowerChar_fix {l : List Char}
    (h : ∀ c ∈ l, goToLowerChar c = c) : l.map goToLowerChar = l := by
  induction l with
  | nil => rfl
  | cons c cs ih =>
    rw [List.map_cons, h c (List.mem_cons_self ..),
      ih (fun x hx => h x (List.mem_cons_of_mem _ hx))]

theorem goToLowerChar_fix {c : Char} (h : c.toNat < 65) :
    goToLowerChar c = c := by
  unfold goToLowerChar
  rw [if_neg (by omega)]

theorem goToLowerChar_ne {c : Char} (h : goToLowerChar c ≠ c) :
    65 ≤ c.toNat ∧ c.toNat ≤ 90 := by
  by_contra hc
  exact h (by unfold goToLowerChar; rw [if_neg hc])

theorem toNat_goToLowerChar_upper {c : Char}
    (h : 65 ≤ c.toNat ∧ c.toNat ≤ 90) :
    (goToLowerChar c).toNat = c.toNat + 32 := by
  unfold goToLowerChar
  rw [if_pos h, toNat_charOfNat (by omega)]

/-- Lowercasing fixes the decimal text of a port: its characters are
digits or `'-'`. -/
theorem goToLower_goItoa (i : Int) : goToLower (goItoa i) = goItoa i := by
  have h : (goItoa i).toList.map goToLowerChar = (goItoa i).toList := by
    refine map_goToLowerChar_fix ?_
    intro c hc
    refine goToLowerChar_fix ?_
    rcases goItoa_chars hc with h | h <;> omega
  unfold goToLower
  rw [h]
  rfl

/-- Lowercasing the query does not change whether it occurs in the decimal
text of a port: a query changed by lowercasing contains an ASCII letter,
which never occurs among digits and `'-'`. -/
theorem goContains_goItoa_toLower (i : Int) (q : String) :
    goContains (goItoa i) (goToLower q) = goContains (goItoa i) q := by
  by_cases hq : goToLower q = q
  · rw [hq]
  · have hex : ∃ c ∈ q.toList, goToLowerChar c ≠ c := by
      by_contra hall
      push_neg at hall
      refine hq ?_
      unfold goToLower
      rw [map_goToLowerChar_fix hall]
      rfl
    rcases hex with ⟨c, hc, hne⟩
    have hup := goToLowerChar_ne hne
    have hR : goContains (goItoa i) q = false := by
      unfold goContains
      rw [decide_eq_false_iff_not]
      intro hinf
      rcases goItoa_chars (hinf.subset hc) with h | h <;> omega
    have hL : goContains (goItoa i) (goToLower q) = false := by
      unfold goContains
      rw [decide_eq_false_iff_not]
      intro hinf
      have hcmem : goToLowerChar c ∈ (goToLower q).toList :=
        List.mem_map_of_mem _ hc
      have h32 := toNat_goToLowerChar_upper hup
      rcases goItoa_chars (hinf.subset hcmem) with h | h <;> omega
    rw [hL, hR]

/-- "the query case-insensitively matches `s`": the query occurs in `s`
with both sides lowercased. -/
def ciMatches (query s : String) : Prop :=
  goContains (goToLower s) (goToLower query) = true

/-- Modelled from the spec (C4's wording): visibility of a record. -/
def specVisible (m : Model) (p : Process) : Prop :=
  (m.showSystemPorts = true ∨ ∃ port ∈ p.ports, (1024 : Int) ≤ port) ∧
  (m.searchQuery = "" ∨ ciMatches m.searchQuery p.name ∨
    ciMatches m.searchQuery p.command ∨
    ∃ port ∈ p.ports, ciMatches m.searchQuery (goItoa port))

/-- **C4**: a record is in `filteredProcesses` iff it is in the snapshot
and (the system-port flag is set OR it has a port ≥ 1024) AND (the query
is empty OR it case-insensitively matches the name, the raw command line,
or the decimal text of one of its ports). -/
theorem C4_filter_visibility (m : Model) (p : Process) :
    p ∈ m.filteredProcesses ↔ p ∈ m.processes ∧ specVisible m p := by
  unfold Model.filteredProcesses
  rw [List.mem_filter]
  apply and_congr_right
  intro _
  unfold visiblePred specVisible SystemPortThreshold ciMatches
  simp only [Bool.and_eq_true, Bool.or_eq_true, List.any_eq_true,
    decide_eq_true_eq, beq_iff_eq, goToLower_goItoa,
    goContains_goItoa_toLower, ge_iff_le, or_assoc]

/-! ## C5: discovery errors never touch the snapshot -/

theorem clampCursor_processes (m : Model) :
    m.clampCursor.processes = m.processes := by
  unfold Model.clampCursor
  dsimp only
  split <;> rfl

theorem updateConfirmingKey_processes (m : Model) (k : KeyPress) :
    (m.updateConfirmingKey k).1.processes = m.processes := by
  unfold Model.updateConfirmingKey
  dsimp only
  repeat' split
  all_goals rfl

theorem updateSearchingKey_processes (m : Model) (k : KeyPress) :
    (m.updateSearchingKey k).1.processes = m.processes := by
  unfold Model.updateSearchingKey
  cases k <;> dsimp only <;>
    first
      | rfl
      | (rw [clampCursor_processes])
      | (split
         · rw [clampCursor_processes]
         · rfl)

/-- Case elimination for `updateNormalKey`: to prove a property of its
result it suffices to prove it for each branch of the key switch (the
`hid` case covers every no-op fall-through). -/
theorem updateNormalKey_cases (m : Model) (k : KeyPress)
    (C : Model × Cmd → Prop)
    (hid : C (m, .none))
    (hquit : C (m, .quit))
    (hsearch : C ({ m with searching := true }, .none))
    (hcancel : m.searchQuery ≠ "" →
      C ({ m with searchQuery := "", cursor := 0 }, .none))
    (hup : m.cursor > 0 → C ({ m with cursor := m.cursor - 1 }, .none))
    (hdown : m.cursor < (m.filteredProcesses.length : Int) - 1 →
      C ({ m with cursor := m.cursor + 1 }, .none))
    (hsel : m.filteredProcesses.length > 0 ∧
        m.cursor < (m.filteredProcesses.length : Int) →
      C ({ m with selected := selSet m.selected (m.filteredProcesses.getD m.cursor.toNat defaultProcess).pid (!selGet m.selected (m.filteredProcesses.getD m.cursor.toNat defaultProcess).pid) }, .none))
    (hselall : C ({ m with selected := m.filteredProcesses.foldl (fun sel p => selSet sel p.pid (!m.filteredProcesses.all (fun p => selGet m.selected p.pid))) m.selected }, .none))
    (hkillsel : m.getSelectedProcesses.length > 0 →
      C ({ m with toKill := m.getSelectedProcesses, confirming := true },
         .none))
    (hkillcur : m.cursor < (m.filteredProcesses.length : Int) →
      C ({ m with toKill := [m.filteredProcesses.getD m.cursor.toNat defaultProcess], confirming := true }, .none))
    (hrefresh : C ({ m with statusMessage := "Refreshing..." },
      .refreshPorts))
    (htoggle : C
      (let m1 := ({ m with
          showSystemPorts := !m.showSystemPorts } : Model).clampCursor
       ({ m1 with statusMessage :=
          if m1.showSystemPorts then "Showing all ports"
          else "Showing user ports only (>=1024)" }, .none))) :
    C (m.updateNormalKey k) := by
  unfold Model.updateNormalKey
  dsimp only
  by_cases h1 : matchQuit k = true
  · rw [if_pos h1]; exact hquit
  · rw [if_neg h1]
    by_cases h2 : matchSearch k = true
    · rw [if_pos h2]; exact hsearch
    · rw [if_neg h2]
      by_cases h3 : matchCancel k = true
      · rw [if_pos h3]
        by_cases h3q : m.searchQuery ≠ ""
        · rw [if_pos h3q]; exact hcancel h3q
        · rw [if_neg h3q]; exact hid
      · rw [if_neg h3]
        by_cases h4 : matchUp k = true
        · rw [if_pos h4]
          by_cases h4c : m.cursor > 0
          · rw [if_pos h4c]; exact hup h4c
          · rw [if_neg h4c]; exact hid
        · rw [if_neg h4]
          by_cases h5 : matchDown k = true
          · rw [if_pos h5]
            by_cases h5c : m.cursor < (m.filteredProcesses.length : Int) - 1
            · rw [if_pos h5c]; exact hdown h5c
            · rw [if_neg h5c]; exact hid
          · rw [if_neg h5]
            by_cases h6 : matchSelect k = true
            · rw [if_pos h6]
              by_cases h6c : m.filteredProcesses.length > 0 ∧
                  m.cursor < (m.filteredProcesses.length : Int)
              · rw [if_pos h6c]; exact hsel h6c
              · rw [if_neg h6c]; exact hid
            · rw [if_neg h6]
              by_cases h7 : matchSelectAll k = true
              · rw [if_pos h7]; exact hselall
              · rw [if_neg h7]
                by_cases h8 : matchKill k = true
                · rw [if_pos h8]
                  by_cases h8a : m.filteredProcesses.length = 0
                  · rw [if_pos h8a]; exact hid
                  · rw [if_neg h8a]
                    by_cases h8b : m.getSelectedProcesses.length > 0
                    · rw [if_pos h8b]; exact hkillsel h8b
                    · rw [if_neg h8b]
                      by_cases h8c :
                          m.cursor < (m.filteredProcesses.length : Int)
                      · rw [if_pos h8c]; exact hkillcur h8c
                      · rw [if_neg h8c]; exact hid
                · rw [if_neg h8]
                  by_cases h9 : matchRefresh k = true
                  · rw [if_pos h9]; exact hrefresh
                  · rw [if_neg h9]
                    by_cases h10 : matchToggle k = true
                    · rw [if_pos h10]; exact htoggle
                    · rw [if_neg h10]; exact hid

theorem updateNormalKey_processes (m : Model) (k : KeyPress) :
    (m.updateNormalKey k).1.processes = m.processes := by
  refine updateNormalKey_cases m k
    (fun r => r.1.processes = m.processes)
    rfl rfl rfl (fun _ => rfl) (fun _ => rfl) (fun _ => rfl) (fun _ => rfl)
    rfl (fun _ => rfl) (fun _ => rfl) rfl ?_
  show (Model.clampCursor _).processes = m.processes
  rw [clampCursor_processes]

theorem updateKey_processes (m : Model) (k : KeyPress) :
    (m.updateKey k).1.processes = m.processes := by
  unfold Model.updateKey
  split
  · exact updateConfirmingKey_processes m k
  · split
    · exact updateSearchingKey_processes m k
    · exact updateNormalKey_processes m k

theorem applyInitialFilter_processes (m : Model) :
    m.applyInitialFilter.processes = m.processes := by
  unfold Model.applyInitialFilter
  split
  · rfl
  · split <;> rfl

/-- **C5**: when a discovery cycle completes with an error, `Update`
leaves the prior snapshot untouched, records the error, and emits the
error status message; and for every message whatsoever, either the
snapshot is unchanged or the message was a successful discovery result
(whose sorted process list becomes the new snapshot). -/
theorem C5_error_keeps_snapshot (m : Model) :
    (∀ (procs : List Process) (e : String),
      (m.update (.refresh procs (some e))).1.processes = m.processes ∧
      (m.update (.refresh procs (some e))).1.statusMessage
        = "Error scanning ports" ∧
      (m.update (.refresh procs (some e))).1.lastError = some e) ∧
    (∀ msg : Msg, (m.update msg).1.processes = m.processes ∨
      ∃ procs : List Process, msg = .refresh procs none ∧
        (m.update msg).1.processes = sortByLowestPort procs) := by
  constructor
  · intro procs e
    exact ⟨rfl, rfl, rfl⟩
  · intro msg
    cases msg with
    | key k => exact Or.inl (updateKey_processes m k)
    | window w h => left; rfl
    | tick =>
      left
      show (if m.confirming = true then (m, Cmd.tickCmd)
        else (m, Cmd.batchRefreshTick)).1.processes = m.processes
      split <;> rfl
    | refresh procs err =>
      cases err with
      | some e => left; exact rfl
      | none =>
        right
        refine ⟨procs, rfl, ?_⟩
        show (Model.clampCursor _).processes = _
        rw [clampCursor_processes]
        split
        · rw [applyInitialFilter_processes]
        · rfl
    | killResult success pid port remaining =>
      left
      show (m.updateKillResult success pid port).1.processes = m.processes
      unfold Model.updateKillResult
      dsimp only
      repeat' split
      all_goals rfl

/-! ## C8: select-all under double application -/

theorem selGet_cons (a : Int × Bool) (rest : List (Int × Bool)) (q : Int) :
    selGet (a :: rest) q = if a.1 = q then a.2 else selGet rest q := by
  unfold selGet
  by_cases h : a.1 = q
  · rw [List.find?_cons_of_pos (p := fun e : Int × Bool => e.1 == q) _
      (by simp [h]), if_pos h]
    rfl
  · rw [List.find?_cons_of_neg (p := fun e : Int × Bool => e.1 == q) _
      (by simp [h]), if_neg h]

theorem selGet_map_ne {pid : Int} (v : Bool) {q : Int} (hq : q ≠ pid) :
    ∀ sel : List (Int × Bool),
      selGet (sel.map (fun e => if e.1 == pid then (e.1, v) else e)) q
        = selGet sel q := by
  intro sel
  induction sel with
  | nil => rfl
  | cons a rest ih =>
    rw [List.map_cons]
    by_cases ha : a.1 = pid
    · rw [if_pos (by simp [ha]), selGet_cons, selGet_cons]
      by_cases haq : a.1 = q
      · exact absurd (ha.symm.trans haq) (fun h => hq h.symm)
      · rw [if_neg haq, if_neg haq]
        exact ih
    · rw [if_neg (by simp [ha]), selGet_cons, selGet_cons]
      by_cases haq : a.1 = q
      · rw [if_pos haq, if_pos haq]
      · rw [if_neg haq, if_neg haq]
        exact ih

theorem selGet_map_set_self {pid : Int} (v : Bool) :
    ∀ {sel : List (Int × Bool)}, (∃ e ∈ sel, e.1 = pid) →
      selGet (sel.map (fun e => if e.1 == pid then (e.1, v) else e)) pid
        = v := by
  intro sel
  induction sel with
  | nil =>
    rintro ⟨e, he, _⟩
    exact absurd he (List.not_mem_nil e)
  | cons a rest ih =>
    intro hmem
    rw [List.map_cons]
    by_cases ha : a.1 = pid
    · rw [if_pos (by simp [ha]), selGet_cons, if_pos ha]
    · rw [if_neg (by simp [ha]), selGet_cons, if_neg ha]
      refine ih ?_
      rcases hmem with ⟨e, he, hkey⟩
      rcases List.mem_cons.mp he with rfl | h'
      · exact absurd hkey ha
      · exact ⟨e, h', hkey⟩

theorem selGet_selSet (sel : List (Int × Bool)) (pid : Int) (v : Bool)
    (q : Int) :
    selGet (selSet sel pid v) q = if q = pid then v else selGet sel q := by
  unfold selSet
  cases hfind : sel.find? (fun e => e.1 == pid) with
  | some e =>
    by_cases hq : q = pid
    · subst hq
      rw [if_pos rfl]
      exact selGet_map_set_self v
        ⟨e, List.mem_of_find?_eq_some hfind,
         by simpa using List.find?_some hfind⟩
    · rw [if_neg hq]
      exact selGet_map_ne v hq sel
  | none =>
    by_cases hq : q = pid
    · subst hq
      rw [if_pos rfl]
      unfold selGet
      rw [List.find?_append, hfind]
      simp
    · rw [if_neg hq]
      unfold selGet
      rw [List.find?_append]
      cases hf2 : sel.find? (fun e => e.1 == q) with
      | some e2 => simp
      | none =>
        have hne : ((pid, v).1 == q) = false := by
          simp
          exact fun h => hq h.symm
        simp [List.find?, hne]

theorem selGet_foldl_selSet (v : Bool) (q : Int) :
    ∀ (F : List Process) (sel0 : List (Int × Bool)),
      selGet (F.foldl (fun sel p => selSet sel p.pid v) sel0) q
        = if q ∈ F.map Process.pid then v else selGet sel0 q := by
  intro F
  induction F with
  | nil => intro sel0; simp
  | cons p F ih =>
    intro sel0
    rw [List.foldl_cons, ih, selGet_selSet]
    by_cases hq : q ∈ F.map Process.pid
    · rw [if_pos hq, if_pos (by simp [hq])]
    · rw [if_neg hq]
      by_cases hqp : q = p.pid
      · rw [if_pos hqp, if_pos (by simp [hqp])]
      · rw [if_neg hqp, if_neg (by simp [List.mem_cons, hqp, hq])]

theorem updateNormalKey_selectAll (m : Model) :
    m.updateNormalKey (.runes "a")
      = ({ m with selected := m.filteredProcesses.foldl (fun sel p => selSet sel p.pid (!m.filteredProcesses.all (fun p => selGet m.selected p.pid))) m.selected }, .none) := by
  unfold Model.updateNormalKey
  dsimp only
  rw [if_neg (by decide), if_neg (by decide), if_neg (by decide),
    if_neg (by decide), if_neg (by decide), if_neg (by decide),
    if_pos (by decide)]

theorem update_selectAll (m : Model) (hc : m.confirming = false)
    (hs : m.searching = false) :
    m.update (.key (.runes "a"))
      = ({ m with selected := m.filteredProcesses.foldl (fun sel p => selSet sel p.pid (!m.filteredProcesses.all (fun p => selGet m.selected p.pid))) m.selected }, .none) := by
  show m.updateKey (.runes "a") = _
  unfold Model.updateKey
  rw [if_neg (by simp [hc]), if_neg (by simp [hs])]
  exact updateNormalKey_selectAll m

def pC8a : Process := ⟨1, [3000], "x", "u", "cx"⟩

def pC8b : Process := ⟨2, [4000], "y", "u", "cy"⟩

/-- A model in Normal mode whose visible records have a *mixed* selection:
record 1 selected, record 2 not. -/
def mC8 : Model :=
  { NewModel "" with processes := [pC8a, pC8b], selected := [(1, true)] }

/-- **C8, counterexample**: on a mixed selection, applying selectAll twice
does not restore the original state — record 1 was selected and ends up
deselected (first press selects everything, second deselects everything).
The visible set is unchanged in between, as the claim requires. -/
theorem C8_counterexample :
    pC8a ∈ mC8.filteredProcesses ∧
    (mC8.update (.key (.runes "a"))).1.filteredProcesses
      = mC8.filteredProcesses ∧
    selGet mC8.selected 1 = true ∧
    selGet (((mC8.update (.key (.runes "a"))).1.update
      (.key (.runes "a"))).1).selected 1 = false := by
  decide

/-- **C8 (amended)**: in Normal mode, if the visible records are uniformly
selected or uniformly unselected, applying selectAll twice restores the
selection state of every visible record (on a mixed selection the pair of
presses instead ends with every visible record deselected, see
`C8_counterexample`). -/
theorem C8_selectAll_uniform (m : Model)
    (hc : m.confirming = false) (hs : m.searching = false)
    (hu : (∀ p ∈ m.filteredProcesses, selGet m.selected p.pid = true) ∨
          (∀ p ∈ m.filteredProcesses, selGet m.selected p.pid = false)) :
    ∀ p ∈ m.filteredProcesses,
      selGet (((m.update (.key (.runes "a"))).1.update
        (.key (.runes "a"))).1).selected p.pid = selGet m.selected p.pid := by
  intro p hp
  have hmem : p.pid ∈ m.filteredProcesses.map Process.pid :=
    List.mem_map_of_mem _ hp
  rw [update_selectAll m hc hs]
  set a1 := m.filteredProcesses.all (fun p => selGet m.selected p.pid)
    with ha1
  set sel1 := m.filteredProcesses.foldl
    (fun sel p => selSet sel p.pid (!a1)) m.selected with hsel1
  have hsel1get : ∀ q ∈ m.filteredProcesses.map Process.pid,
      selGet sel1 q = !a1 := by
    intro q hq
    rw [hsel1, selGet_foldl_selSet, if_pos hq]
  rw [update_selectAll ({ m with selected := sel1 }) hc hs]
  show selGet (m.filteredProcesses.foldl
      (fun sel p => selSet sel p.pid
        (!m.filteredProcesses.all (fun p => selGet sel1 p.pid))) sel1)
      p.pid = selGet m.selected p.pid
  have ha2 : m.filteredProcesses.all (fun p => selGet sel1 p.pid) = !a1 := by
    cases hcase : (!a1) with
    | true =>
      simp only [List.all_eq_true]
      intro p' hp'
      rw [hsel1get p'.pid (List.mem_map_of_mem _ hp'), hcase]
    | false =>
      refine (List.all_eq_false).mpr ⟨p, hp, ?_⟩
      rw [hsel1get p.pid hmem, hcase]
      simp
  rw [ha2, selGet_foldl_selSet, if_pos hmem, Bool.not_not]
  rcases hu with hall | hnone
  · rw [hall p hp, ha1]
    simp only [List.all_eq_true]
    intro p' hp'
    rw [hall p' hp']
  · rw [hnone p hp, ha1]
    exact (List.all_eq_false).mpr ⟨p, hp, by rw [hnone p hp]; simp⟩

def mC8w : Model := { NewModel "" with processes := [pC8a, pC8b] }

/-- Witness for the amended C8 on a uniformly-unselected concrete model. -/
theorem C8_selectAll_uniform_witness :
    mC8w.confirming = false ∧ mC8w.searching = false ∧
    (∀ p ∈ mC8w.filteredProcesses, selGet mC8w.selected p.pid = false) ∧
    pC8a ∈ mC8w.filteredProcesses ∧
    selGet (((mC8w.update (.key (.runes "a"))).1.update
      (.key (.runes "a"))).1).selected pC8a.pid
      = selGet mC8w.selected pC8a.pid :=
  ⟨rfl, rfl, by decide, by decide,
    C8_selectAll_uniform mC8w rfl rfl (Or.inr (by decide)) pC8a (by decide)⟩


/-! ## C6: batch-kill sequencing -/

/-- The kill commands the batch emits for a remaining plan, first one
carrying `r` as its remaining-count, counting down. -/
def killCmdsFrom : List Process → Int → List Cmd
  | [], _ => []
  | p :: rest, r =>
    Cmd.killCmd p.pid p.lowestPort r :: killCmdsFrom rest (r - 1)

/-- The Bubbletea runtime's feedback loop restricted to kill commands: as
long as the pending command is `killProcess(pid, port, remaining)`, deliver
its `killResultMsg` (success read off the oracle list) back into `Update`;
stop at any other command.  Returns the trace of commands Update produced
(one per loop entry, plus the final one) and the final model. -/
def runKills : Model × Cmd → List Bool → List Cmd × Model
  | (m, c), [] => ([c], m)
  | (m, c), s :: rest =>
    match c with
    | .killCmd pid port remaining =>
      let next := m.update (.killResult s pid port remaining)
      let tail := runKills next rest
      (c :: tail.1, tail.2)
    | c => ([c], m)

theorem updateKillResult_next (m : Model) (s : Bool) (pid port : Int)
    (h : m.killIndex + 1 < m.toKill.length) :
    ∃ m2, m.updateKillResult s pid port =
      (m2, Cmd.killCmd (m.toKill.getD (m.killIndex + 1) defaultProcess).pid
        (m.toKill.getD (m.killIndex + 1) defaultProcess).lowestPort
        ((m.toKill.length : Int) - ((m.killIndex : Int) + 1) - 1))
      ∧ m2.toKill = m.toKill ∧ m2.killIndex = m.killIndex + 1 := by
  refine ⟨(m.updateKillResult s pid port).1, ?_, ?_, ?_⟩ <;>
    (unfold Model.updateKillResult; dsimp only; cases s <;> simp [h])

theorem updateKillResult_done (m : Model) (s : Bool) (pid port : Int)
    (h : ¬ m.killIndex + 1 < m.toKill.length) :
    (m.updateKillResult s pid port).1.toKill = [] ∧
    (m.updateKillResult s pid port).1.killIndex = 0 ∧
    (m.updateKillResult s pid port).2 = Cmd.refreshPorts := by
  unfold Model.updateKillResult
  dsimp only
  cases s <;> simp [h]

theorem runKills_inv (plan : List Process) :
    ∀ (results : List Bool) (j : Nat) (m : Model),
    m.toKill = plan → m.killIndex = j → j < plan.length →
    results.length = plan.length - j →
    ∃ mf,
      runKills (m, Cmd.killCmd (plan.getD j defaultProcess).pid
          (plan.getD j defaultProcess).lowestPort
          ((plan.length : Int) - (j : Int) - 1)) results =
        (killCmdsFrom (plan.drop j)
          ((plan.length : Int) - (j : Int) - 1) ++ [Cmd.refreshPorts], mf)
      ∧ mf.toKill = [] ∧ mf.killIndex = 0 := by
  intro results
  induction results with
  | nil =>
    intro j m htk hki hj hlen
    exact absurd hlen (by simp; omega)
  | cons s rest ih =>
    intro j m htk hki hj hlen
    have hstep : runKills (m, Cmd.killCmd (plan.getD j defaultProcess).pid
        (plan.getD j defaultProcess).lowestPort
        ((plan.length : Int) - (j : Int) - 1)) (s :: rest) =
      (Cmd.killCmd (plan.getD j defaultProcess).pid
          (plan.getD j defaultProcess).lowestPort
          ((plan.length : Int) - (j : Int) - 1) ::
        (runKills (m.updateKillResult s (plan.getD j defaultProcess).pid
          (plan.getD j defaultProcess).lowestPort) rest).1,
       (runKills (m.updateKillResult s (plan.getD j defaultProcess).pid
          (plan.getD j defaultProcess).lowestPort) rest).2) := rfl
    by_cases hlt : j + 1 < plan.length
    · obtain ⟨m2, hnext, h2t, h2k⟩ := updateKillResult_next m s
        (plan.getD j defaultProcess).pid
        (plan.getD j defaultProcess).lowestPort
        (by rw [hki, htk]; exact hlt)
      rw [htk, hki] at hnext
      rw [htk] at h2t
      rw [hki] at h2k
      obtain ⟨mf, htr, hf1, hf2⟩ := ih (j + 1) m2 h2t h2k hlt
        (by simp at hlen; omega)
      push_cast at htr
      refine ⟨mf, ?_, hf1, hf2⟩
      rw [hstep, hnext, htr]
      rw [List.drop_eq_getElem_cons hj]
      simp only [killCmdsFrom, List.cons_append]
      rw [List.getD_eq_getElem plan defaultProcess hj]
      have harith : (plan.length : Int) - (j : Int) - 1 - 1 =
          (plan.length : Int) - ((j : Int) + 1) - 1 := by ring
      rw [harith]
    · obtain ⟨hd1, hd2, hd3⟩ := updateKillResult_done m s
        (plan.getD j defaultProcess).pid
        (plan.getD j defaultProcess).lowestPort
        (by rw [hki, htk]; exact hlt)
      have hrest : rest = [] := by
        refine List.eq_nil_of_length_eq_zero ?_
        simp at hlen
        omega
      subst hrest
      refine ⟨(m.updateKillResult s (plan.getD j defaultProcess).pid
        (plan.getD j defaultProcess).lowestPort).1, ?_, hd1, hd2⟩
      rw [hstep]
      have hnilstep : ∀ p : Model × Cmd, runKills p [] = ([p.2], p.1) :=
        fun p => rfl
      rw [hnilstep, hd3]
      rw [List.drop_eq_getElem_cons hj,
        List.drop_eq_nil_of_le (by omega : plan.length ≤ j + 1)]
      simp only [killCmdsFrom, List.cons_append, List.nil_append]
      rw [List.getD_eq_getElem plan defaultProcess hj]

/-- C6: For a confirmed batch-kill plan of N targets, exactly N termination
calls are issued, strictly one at a time: pressing confirm (`y`) in
confirmation mode issues the first `killCmd` (with remaining-count N-1);
each later `killCmd` is produced only by the `Update` step that consumes
the previous call's `killResult`, counting the remaining field down to 0;
and after the N-th result the next command is the final `refreshPorts`,
with the plan cleared (`toKill = []`) and the batch cursor reset
(`killIndex = 0`).  `runKills` is the Bubbletea feedback loop; `results`
is the arbitrary list of the N success/failure outcomes. -/
theorem C6_batch_kill (m : Model) (k : KeyPress) (results : List Bool)
    (hc : m.confirming = true) (hk : matchConfirm k = true)
    (hne : m.toKill ≠ [])
    (hlen : results.length = m.toKill.length) :
    (runKills (m.update (.key k)) results).1 =
      killCmdsFrom m.toKill ((m.toKill.length : Int) - 1)
        ++ [Cmd.refreshPorts]
    ∧ (runKills (m.update (.key k)) results).2.toKill = []
    ∧ (runKills (m.update (.key k)) results).2.killIndex = 0 := by
  have hpos : 0 < m.toKill.length := List.length_pos.mpr hne
  have hupd : m.update (.key k) =
      ({ m with confirming := false, killIndex := 0 },
       Cmd.killCmd (m.toKill.headD defaultProcess).pid
         (m.toKill.headD defaultProcess).lowestPort
         ((m.toKill.length : Int) - 1)) := by
    show m.updateKey k = _
    unfold Model.updateKey
    rw [if_pos hc]
    unfold Model.updateConfirmingKey
    rw [if_pos hk]
    dsimp only
    rw [if_pos hpos]
  have hhead : m.toKill.headD defaultProcess =
      m.toKill.getD 0 defaultProcess := by
    cases m.toKill <;> rfl
  obtain ⟨mf, htr, hf1, hf2⟩ := runKills_inv m.toKill results 0
    ({ m with confirming := false, killIndex := 0 }) rfl rfl hpos
    (by rw [Nat.sub_zero]; exact hlen)
  simp only [Nat.cast_zero, sub_zero, List.drop_zero] at htr
  rw [hupd, hhead, htr]
  exact ⟨rfl, hf1, hf2⟩

def pC6a : Process := ⟨11, [5000], "pa", "u", "ca"⟩

def pC6b : Process := ⟨12, [6000], "pb", "u", "cb"⟩

def mC6 : Model :=
  { NewModel "" with confirming := true, toKill := [pC6a, pC6b] }

/-- Witness for C6 on a concrete two-target plan with one success and one
failure. -/
theorem C6_batch_kill_witness :
    (runKills (mC6.update (.key (.runes "y"))) [true, false]).1 =
      killCmdsFrom mC6.toKill ((mC6.toKill.length : Int) - 1)
        ++ [Cmd.refreshPorts]
    ∧ (runKills (mC6.update (.key (.runes "y"))) [true, false]).2.toKill = []
    ∧ (runKills (mC6.update (.key (.runes "y"))) [true, false]).2.killIndex
        = 0 :=
  C6_batch_kill mC6 (.runes "y") [true, false] rfl rfl (by decide) (by decide)


/-! ## C7: the cursor stays in range -/

/-- The claim's bound: `0 ≤ cursor` and `cursor ≤ visibleCount - 1`, read
as `cursor = 0` when the visible list is empty — equivalently
`cursor < max 1 visibleCount`. -/
def CursorInv (m : Model) : Prop :=
  0 ≤ m.cursor ∧ m.cursor < max 1 ((m.filteredProcesses.length : Int))

theorem applyInitialFilter_cursor (m : Model) :
    m.applyInitialFilter.cursor = m.cursor := by
  unfold Model.applyInitialFilter
  split
  · rfl
  · split <;> rfl

theorem clampCursor_inv (m : Model) (h0 : 0 ≤ m.cursor) :
    CursorInv m.clampCursor := by
  unfold Model.clampCursor
  dsimp only
  by_cases h : m.cursor ≥ (m.filteredProcesses.length : Int)
  · rw [if_pos h]
    show 0 ≤ max 0 ((m.filteredProcesses.length : Int) - 1) ∧
      max 0 ((m.filteredProcesses.length : Int) - 1) <
        max 1 ((m.filteredProcesses.length : Int))
    omega
  · rw [if_neg h]
    exact ⟨h0, by
      show m.cursor < max 1 ((m.filteredProcesses.length : Int))
      omega⟩

theorem updateConfirmingKey_inv (m : Model) (k : KeyPress)
    (h : CursorInv m) : CursorInv (m.updateConfirmingKey k).1 := by
  unfold Model.updateConfirmingKey
  dsimp only
  by_cases h1 : matchConfirm k = true
  · rw [if_pos h1]
    by_cases h2 : m.toKill.length > 0
    · rw [if_pos h2]; exact h
    · rw [if_neg h2]; exact h
  · rw [if_neg h1]
    by_cases h3 : matchCancel k = true
    · rw [if_pos h3]; exact h
    · rw [if_neg h3]; exact h

theorem updateSearchingKey_inv (m : Model) (k : KeyPress)
    (h : CursorInv m) : CursorInv (m.updateSearchingKey k).1 := by
  unfold Model.updateSearchingKey
  cases k with
  | esc => exact clampCursor_inv _ h.1
  | backspace =>
    dsimp only
    by_cases hq : m.searchQuery.length > 0
    · rw [if_pos hq]
      exact clampCursor_inv _ h.1
    · rw [if_neg hq]; exact h
  | enter => exact h
  | runes s =>
    exact ⟨le_refl 0, lt_of_lt_of_le one_pos (le_max_left 1 _)⟩
  | up => exact h
  | down => exact h
  | space => exact h
  | tab => exact h
  | ctrlC => exact h

theorem updateNormalKey_inv (m : Model) (k : KeyPress)
    (h : CursorInv m) : CursorInv (m.updateNormalKey k).1 := by
  obtain ⟨h0, h1⟩ := h
  refine updateNormalKey_cases m k (fun r => CursorInv r.1)
    ⟨h0, h1⟩ ⟨h0, h1⟩ ⟨h0, h1⟩ ?_ ?_ ?_
    (fun _ => ⟨h0, h1⟩) ⟨h0, h1⟩ (fun _ => ⟨h0, h1⟩) (fun _ => ⟨h0, h1⟩)
    ⟨h0, h1⟩ ?_
  · intro hq
    exact ⟨le_refl 0, lt_of_lt_of_le one_pos (le_max_left 1 _)⟩
  · intro hc
    show 0 ≤ m.cursor - 1 ∧
      m.cursor - 1 < max 1 ((m.filteredProcesses.length : Int))
    omega
  · intro hc
    show 0 ≤ m.cursor + 1 ∧
      m.cursor + 1 < max 1 ((m.filteredProcesses.length : Int))
    omega
  · exact clampCursor_inv _ h0

theorem updateRefresh_inv (m : Model) (ps : List Process)
    (err : Option String) (h : CursorInv m) :
    CursorInv (m.updateRefresh ps err).1 := by
  unfold Model.updateRefresh
  cases err with
  | some e => exact h
  | none =>
    dsimp only
    refine clampCursor_inv _ ?_
    split
    · rw [applyInitialFilter_cursor]
      exact h.1
    · exact h.1

theorem updateKillResult_step_inv (m : Model) (s : Bool) (pid port : Int)
    (h : CursorInv m) : CursorInv (m.updateKillResult s pid port).1 := by
  unfold Model.updateKillResult
  dsimp only
  cases s <;> (split <;> (split <;> exact h))

theorem update_inv (m : Model) (msg : Msg) (h : CursorInv m) :
    CursorInv (m.update msg).1 := by
  cases msg with
  | key k =>
    show CursorInv (m.updateKey k).1
    unfold Model.updateKey
    by_cases hc : m.confirming = true
    · rw [if_pos hc]; exact updateConfirmingKey_inv m k h
    · rw [if_neg hc]
      by_cases hs : m.searching = true
      · rw [if_pos hs]; exact updateSearchingKey_inv m k h
      · rw [if_neg hs]; exact updateNormalKey_inv m k h
  | window w h' => exact h
  | tick =>
    show CursorInv (if m.confirming = true then (m, Cmd.tickCmd)
      else (m, Cmd.batchRefreshTick)).1
    split <;> exact h
  | refresh ps err => exact updateRefresh_inv m ps err h
  | killResult s pid port r => exact updateKillResult_step_inv m s pid port h

/-- C7: in every state reachable from the initial model by any sequence of
key, window, tick, discovery-result, and kill-result messages, the focus
cursor lies in `[0, visibleCount-1]`, or equals 0 when the filtered list
is empty (`CursorInv`); this covers system-port toggles, search-query
changes, and shrinking snapshots, all of which re-clamp the cursor. -/
theorem C7_cursor_clamped (f : String) (msgs : List Msg) :
    CursorInv (msgs.foldl (fun m msg => (m.update msg).1) (NewModel f)) := by
  suffices hgen : ∀ (msgs : List Msg) (m : Model), CursorInv m →
      CursorInv (msgs.foldl (fun m msg => (m.update msg).1) m) from
    hgen msgs (NewModel f)
      ⟨le_refl 0, lt_of_lt_of_le one_pos (le_max_left 1 _)⟩
  intro msgs
  induction msgs with
  | nil => intro m h; exact h
  | cons msg rest ih =>
    intro m h
    exact ih _ (update_inv m msg h)


/-! ## formatter.go: the command formatter chain -/

/-- RE2 `\s` (Go regexp syntax): `[\t\n\f\r ]`. -/
def reSpace (c : Char) : Bool :=
  c == ' ' || c == '\t' || c == '\n' || c == '\x0c' || c == '\r'

/-- Leftmost-match scan of an anchored regular-expression matcher: try
`attempt` at every position from left to right, including the final empty
position, and return the first capture. -/
def reScan (attempt : List Char → Option (List Char)) :
    List Char → Option (List Char)
  | [] => attempt []
  | c :: cs =>
    match attempt (c :: cs) with
    | some r => some r
    | none => reScan attempt cs

/-- Match of `` node_modules/\.bin/([^/\s]+) `` anchored at the current
position: the literal, then the greedy non-empty run of characters that
are neither `/` nor white space; returns capture group 1. -/
def binSymlinkAt (cs : List Char) : Option (List Char) :=
  let lit := "node_modules/.bin/".toList
  if lit.isPrefixOf cs then
    let run := (cs.drop lit.length).takeWhile
      (fun c => !(c == '/') && !reSpace c)
    if run.isEmpty then none else some run
  else none

/-- `binSymlinkRegex.FindStringSubmatch`, group 1 (`none`: no match). -/
def binSymlinkFind (cmd : String) : Option String :=
  (reScan binSymlinkAt cmd.toList).map String.mk

/-- Match of `` node_modules/\.pnpm/([^/]+) `` anchored at the current
position. -/
def pnpmPackageAt (cs : List Char) : Option (List Char) :=
  let lit := "node_modules/.pnpm/".toList
  if lit.isPrefixOf cs then
    let run := (cs.drop lit.length).takeWhile (fun c => !(c == '/'))
    if run.isEmpty then none else some run
  else none

/-- `pnpmPackageRegex.FindStringSubmatch`, group 1. -/
def pnpmPackageFind (cmd : String) : Option String :=
  (reScan pnpmPackageAt cmd.toList).map String.mk

/-- Match of `` node_modules/([^/]+(?:/[^/]+)?) `` anchored at the current
position: the literal, a non-empty run of non-`/` characters, then
optionally one `/` and a further non-empty run (greedy). -/
def npmPackageAt (cs : List Char) : Option (List Char) :=
  let lit := "node_modules/".toList
  if lit.isPrefixOf cs then
    let rest := cs.drop lit.length
    let r1 := rest.takeWhile (fun c => !(c == '/'))
    if r1.isEmpty then none
    else
      match rest.drop r1.length with
      | '/' :: rest2 =>
        let r2 := rest2.takeWhile (fun c => !(c == '/'))
        if r2.isEmpty then some r1 else some (r1 ++ '/' :: r2)
      | _ => some r1
  else none

/-- `npmPackageRegex.FindStringSubmatch`, group 1. -/
def npmPackageFind (cmd : String) : Option String :=
  (reScan npmPackageAt cmd.toList).map String.mk

/-- Match of `` /(?:opt/homebrew|usr/local)/Cellar/([^/]+)/ `` for one of
the two literal alternatives, anchored at the current position: the
literal, a greedy non-empty run of non-`/` characters, then a mandatory
`/`.  The run being maximal, the trailing `/` matches exactly when the
run is followed by at least one more character. -/
def homebrewLitAt (lit cs : List Char) : Option (List Char) :=
  if lit.isPrefixOf cs then
    let rest := cs.drop lit.length
    let run := rest.takeWhile (fun c => !(c == '/'))
    if run.isEmpty then none
    else if (rest.drop run.length).isEmpty then none
    else some run
  else none

/-- The two alternatives of the homebrew pattern (they cannot both match
at one position, so alternation order is irrelevant). -/
def homebrewAt (cs : List Char) : Option (List Char) :=
  match homebrewLitAt "/opt/homebrew/Cellar/".toList cs with
  | some r => some r
  | none => homebrewLitAt "/usr/local/Cellar/".toList cs

/-- `homebrewRegex.FindStringSubmatch`, group 1. -/
def homebrewFind (cmd : String) : Option String :=
  (reScan homebrewAt cmd.toList).map String.mk

/-- Match of `` /([^/]+)\.app/Contents/ `` anchored at the current
position: `/`, then the greedy non-`/` run `R`, backtracked so that
`.app/Contents/` follows.  Since `.app/Contents/` starts with four
non-`/` characters and then `/`, and `R` is the maximal non-`/` run, the
only possible split is capture `++ ".app" = R` with `/Contents/`
following `R`; the capture must be non-empty, so `R` has at least five
characters. -/
def appBundleAt (cs : List Char) : Option (List Char) :=
  match cs with
  | '/' :: rest =>
    let run := rest.takeWhile (fun c => !(c == '/'))
    if run.length ≥ 5 &&
        ".app".toList.isSuffixOf run &&
        "/Contents/".toList.isPrefixOf (rest.drop run.length) then
      some (run.take (run.length - 4))
    else none
  | _ => none

/-- `appBundleRegex.FindStringSubmatch`, group 1. -/
def appBundleFind (cmd : String) : Option String :=
  (reScan appBundleAt cmd.toList).map String.mk

/-- `strings.Index` (first index of `sub` in the list, `none` for Go's
`-1`). -/
def goIndexChars (sub : List Char) : List Char → Option Nat
  | [] => if sub.isEmpty then some 0 else none
  | c :: cs =>
    if sub.isPrefixOf (c :: cs) then some 0
    else (goIndexChars sub cs).map (· + 1)

/-- `extractExecutable` from formatter.go. -/
def extractExecutable (cmd : String) : String :=
  if cmd = "" then ""
  else
    match goFields cmd with
    | [] => ""
    | execPath :: _ => goFilepathBase execPath

/-- `projectDirs` from formatter.go. -/
def projectDirs : List String :=
  ["/Code/", "/Projects/", "/Developer/", "/Sites/", "/src/", "/repos/",
   "/git/", "/workspace/", "/Cloudflare/", "/OSS/"]

/-- The loop of `extractProjectName`: for the first directory pattern
that occurs in the path, the text between it and the next `/` — Go's
`strings.Split(remaining, "/")[0]` — if non-empty; otherwise keep
trying the later patterns. -/
def extractProjectNameAux (path : List Char) : List String → String
  | [] => ""
  | dir :: dirs =>
    match goIndexChars dir.toList path with
    | some idx =>
      let remaining := path.drop (idx + dir.toList.length)
      let p0 := remaining.takeWhile (fun c => !(c == '/'))
      if p0.isEmpty then extractProjectNameAux path dirs
      else String.mk p0
    | none => extractProjectNameAux path dirs

/-- `extractProjectName` from formatter.go. -/
def extractProjectName (path : String) : String :=
  extractProjectNameAux path.toList projectDirs

/-- `extractPnpmPackage` from formatter.go.  A scoped capture with no `+`
falls through to the regular `name@version` handling, exactly as the Go
control flow does. -/
def extractPnpmPackage (path : String) : String :=
  match pnpmPackageFind path with
  | none => ""
  | some pkgPart =>
    let scopedPart : Option String :=
      if goStartsWith pkgPart "@" then
        match goIndexChars "+".toList pkgPart.toList with
        | some plusIdx =>
          let afterPlus := pkgPart.toList.drop (plusIdx + 1)
          match goIndexChars "@".toList afterPlus with
          | some atIdx => some (String.mk (afterPlus.take atIdx))
          | none => some (String.mk afterPlus)
        | none => none
      else none
    match scopedPart with
    | some r => r
    | none =>
      match goIndexChars "@".toList pkgPart.toList with
      | some atIdx => String.mk (pkgPart.toList.take atIdx)
      | none => pkgPart

/-- `extractNpmPackage` from formatter.go. -/
def extractNpmPackage (path : String) : String :=
  match npmPackageFind path with
  | none => ""
  | some pkgPart =>
    let parts := goSplit pkgPart '/'
    if goStartsWith pkgPart "@" then
      if parts.length ≥ 2 then parts.getD 1 "" else parts.getD 0 ""
    else parts.getD 0 ""

/-- `systemPaths` from formatter.go. -/
def systemPaths : List String :=
  ["/usr/bin/", "/usr/sbin/", "/usr/libexec/", "/bin/", "/sbin/",
   "/System/"]

/-- `scriptRunners` membership (`isScriptRunner`). -/
def isScriptRunner (exe : String) : Bool :=
  exe == "node" || exe == "python" || exe == "python3" || exe == "ruby" ||
  exe == "perl" || exe == "php"

/-- `fallbackFormat` from formatter.go.  Go's byte-level `len(cmd) > 30`
truncation is modelled at character granularity. -/
def fallbackFormat (cmd : String) : String :=
  let executable := extractExecutable cmd
  if executable = "" then
    if cmd.length > 30 then String.mk (cmd.toList.take 27) ++ "..."
    else cmd
  else
    let parts := goFields cmd
    if parts.length > 1 ∧ isScriptRunner executable then
      let arg := parts.getD 1 ""
      if ¬ goStartsWith arg "-" ∧ ¬ goStartsWith arg "(" then
        let argBase := goTrimSuffix (goTrimSuffix (goTrimSuffix
          (goTrimSuffix (goFilepathBase arg) ".js") ".ts") ".py") ".rb"
        if argBase ≠ "" ∧ argBase ≠ executable then
          executable ++ " (" ++ argBase ++ ")"
        else executable
      else executable
    else executable

/-- `BinSymlinkFormatter.CanFormat`. -/
def binSymlinkCanFormat (cmd : String) : Bool :=
  goContains cmd "node_modules/.bin/"

/-- `BinSymlinkFormatter.Format`. -/
def binSymlinkFormat (cmd : String) : String :=
  let binName := (binSymlinkFind cmd).getD ""
  let projectName := extractProjectName cmd
  if binName ≠ "" then
    if projectName ≠ "" then binName ++ " (" ++ projectName ++ ")"
    else binName
  else ""

/-- `PnpmFormatter.CanFormat`. -/
def pnpmCanFormat (cmd : String) : Bool :=
  goContains cmd "node_modules/.pnpm/"

/-- `PnpmFormatter.Format`. -/
def pnpmFormat (cmd : String) : String :=
  let executable := extractExecutable cmd
  let pkgName := extractPnpmPackage cmd
  let projectName := extractProjectName cmd
  if pkgName ≠ "" then
    if projectName ≠ "" then pkgName ++ " (" ++ projectName ++ ")"
    else pkgName
  else if projectName ≠ "" ∧ executable ≠ "" then
    executable ++ " (" ++ projectName ++ ")"
  else ""

/-- `NpmFormatter.CanFormat`. -/
def npmCanFormat (cmd : String) : Bool :=
  goContains cmd "node_modules/" && !goContains cmd "node_modules/.pnpm/"

/-- `NpmFormatter.Format`. -/
def npmFormat (cmd : String) : String :=
  let executable := extractExecutable cmd
  let pkgName := extractNpmPackage cmd
  let projectName := extractProjectName cmd
  if pkgName ≠ "" then
    if projectName ≠ "" then pkgName ++ " (" ++ projectName ++ ")"
    else pkgName
  else if projectName ≠ "" ∧ executable ≠ "" then
    executable ++ " (" ++ projectName ++ ")"
  else ""

/-- `HomebrewFormatter.CanFormat`. -/
def homebrewCanFormat (cmd : String) : Bool :=
  goContains cmd "/opt/homebrew/Cellar/" || goContains cmd "/usr/local/Cellar/"

/-- `HomebrewFormatter.Format`. -/
def homebrewFormat (cmd : String) : String :=
  (homebrewFind cmd).getD ""

/-- `AppBundleFormatter.CanFormat`. -/
def appBundleCanFormat (cmd : String) : Bool :=
  goContains cmd ".app/Contents/"

/-- `AppBundleFormatter.Format`. -/
def appBundleFormat (cmd : String) : String :=
  (appBundleFind cmd).getD ""

/-- `ProjectFormatter.CanFormat`. -/
def projectCanFormat (cmd : String) : Bool :=
  projectDirs.any (fun dir => goContains cmd dir)

/-- `ProjectFormatter.Format`. -/
def projectFormat (cmd : String) : String :=
  let executable := extractExecutable cmd
  let projectName := extractProjectName cmd
  if projectName ≠ "" ∧ executable ≠ "" then
    executable ++ " (" ++ projectName ++ ")"
  else ""

/-- `SystemBinaryFormatter.CanFormat`. -/
def systemCanFormat (cmd : String) : Bool :=
  systemPaths.any (fun p => goStartsWith cmd p)

/-- `SystemBinaryFormatter.Format`. -/
def systemFormat (cmd : String) : String :=
  extractExecutable cmd

/-- The `CommandFormatter` interface. -/
structure Formatter where
  name : String
  canFormat : String → Bool
  format : String → String

/-- `registeredFormatters`, in source (priority) order. -/
def registeredFormatters : List Formatter :=
  [⟨"bin-symlink", binSymlinkCanFormat, binSymlinkFormat⟩,
   ⟨"pnpm", pnpmCanFormat, pnpmFormat⟩,
   ⟨"npm", npmCanFormat, npmFormat⟩,
   ⟨"homebrew", homebrewCanFormat, homebrewFormat⟩,
   ⟨"app-bundle", appBundleCanFormat, appBundleFormat⟩,
   ⟨"project", projectCanFormat, projectFormat⟩,
   ⟨"system", systemCanFormat, systemFormat⟩]

/-- The formatter loop of `formatCommand`: the first applicable formatter
returning a non-empty string wins. -/
def runChain (cmd : String) : List Formatter → Option String
  | [] => none
  | f :: fs =>
    if f.canFormat cmd then
      let result := f.format cmd
      if result ≠ "" then some result else runChain cmd fs
    else runChain cmd fs

/-- `formatCommand` from formatter.go. -/
def formatCommand (cmd : String) : String :=
  if cmd = "" then ""
  else
    match runChain cmd registeredFormatters with
    | some r => r
    | none => fallbackFormat cmd

theorem string_append_ne_empty (a b : String) (h : b ≠ "") :
    a ++ b ≠ "" := by
  obtain ⟨la⟩ := a
  obtain ⟨lb⟩ := b
  intro hc
  apply h
  have hdata : la ++ lb = [] := congrArg String.data hc
  rcases List.append_eq_nil.mp hdata with ⟨h1, h2⟩
  rw [h2]

theorem runChain_some_ne (cmd : String) :
    ∀ (fs : List Formatter) (r : String),
    runChain cmd fs = some r → r ≠ "" := by
  intro fs
  induction fs with
  | nil => intro r h; simp [runChain] at h
  | cons f fs ih =>
    intro r h
    unfold runChain at h
    dsimp only at h
    by_cases hcf : f.canFormat cmd = true
    · rw [if_pos hcf] at h
      by_cases hr : f.format cmd ≠ ""
      · rw [if_pos hr] at h
        have heq := Option.some.inj h
        rw [← heq]
        exact hr
      · rw [if_neg hr] at h
        exact ih r h
    · rw [if_neg hcf] at h
      exact ih r h

theorem fallbackFormat_ne (cmd : String) (h : cmd ≠ "") :
    fallbackFormat cmd ≠ "" := by
  unfold fallbackFormat
  dsimp only
  split
  · split
    · exact string_append_ne_empty _ _ (by decide)
    · exact h
  · rename_i he
    split
    · split
      · split
        · exact string_append_ne_empty _ _ (by decide)
        · exact he
      · exact he
    · exact he

/-- C9: `formatCommand` (a pure function of its argument by
construction) returns the empty string exactly on the empty command:
every formatter result the chain accepts is non-empty by the loop's own
guard, and the fallback returns a non-empty string for every non-empty
input — the bare command or its truncation when no executable can be
extracted, and otherwise a string with the non-empty executable name. -/
theorem C9_empty_iff (cmd : String) :
    formatCommand cmd = "" ↔ cmd = "" := by
  constructor
  · intro hempty
    by_contra hne
    unfold formatCommand at hempty
    rw [if_neg hne] at hempty
    cases hrc : runChain cmd registeredFormatters with
    | some r =>
      rw [hrc] at hempty
      exact runChain_some_ne cmd registeredFormatters r hrc hempty
    | none =>
      rw [hrc] at hempty
      exact fallbackFormat_ne cmd hne hempty
  · intro hcmd
    rw [hcmd]
    rfl

/-- Spec-side rendering of the C10 sentence, written from the claim's
words: if a second token exists that is not a flag and does not look
like a parenthesized annotation, and its base name with the common
script extensions stripped is non-empty and differs from the executable
name, render the executable with the argument base name in parentheses;
otherwise render the bare executable name. -/
def specScriptResult (cmd : String) : String :=
  let executable := extractExecutable cmd
  let parts := goFields cmd
  if parts.length > 1 then
    let arg := parts.getD 1 ""
    if ¬ goStartsWith arg "-" ∧ ¬ goStartsWith arg "(" then
      let argBase := goTrimSuffix (goTrimSuffix (goTrimSuffix
        (goTrimSuffix (goFilepathBase arg) ".js") ".ts") ".py") ".rb"
      if argBase ≠ "" ∧ argBase ≠ executable then
        executable ++ " (" ++ argBase ++ ")"
      else executable
    else executable
  else executable

/-- C10: for every command whose executable is a known script-interpreter
name, the fallback of `formatCommand` renders exactly what the claim
describes (`specScriptResult`); in particular the two cited examples
(no chain formatter applies to either, so `formatCommand` reaches the
fallback). -/
theorem C10_script_fallback :
    (∀ cmd : String, isScriptRunner (extractExecutable cmd) = true →
      fallbackFormat cmd = specScriptResult cmd)
    ∧ formatCommand "node server.js" = "node (server)"
    ∧ formatCommand "node (npx remotion studio)" = "node" := by
  refine ⟨?_, by decide, by decide⟩
  intro cmd hrun
  have hexe : ¬ (extractExecutable cmd = "") := by
    intro h0
    rw [h0] at hrun
    exact absurd hrun (by decide)
  unfold fallbackFormat specScriptResult
  dsimp only
  rw [if_neg hexe]
  by_cases hp : (goFields cmd).length > 1
  · rw [if_pos ⟨hp, hrun⟩, if_pos hp]
  · rw [if_neg (fun hand => hp hand.1), if_neg hp]

/-- Witness for C10 at a concrete script-runner command. -/
theorem C10_script_fallback_witness :
    isScriptRunner (extractExecutable "python3 app.py") = true ∧
    fallbackFormat "python3 app.py" = specScriptResult "python3 app.py" :=
  ⟨by decide, C10_script_fallback.1 "python3 app.py" (by decide)⟩
